import Mathlib

/-!
Verification of the TelDrive resumable chunked-upload orchestrator
(`Put` in drivers/teldrive/driver.go) against its specification.

The driver is embedded shallowly: the network collaborators (the remote
part registry, the per-chunk transfer endpoint, the create-file endpoint),
the random uuid source and the byte stream are modelled as an explicit
environment `Env`; machine integers (Go int64) are modelled as `Int`
(all quantities handled by the claims stay far below 2^63, where Go
arithmetic and `Int` arithmetic agree); the float64 progress ratio is
modelled as `ℚ` (the ratio computation `uploadedSize / fileSize * 100`
is exact in ℚ; float64 rounding is monotone and `s/s*100 = 100` is exact
in float64 as well, so the ℚ model is faithful for the ordering
properties stated here).  Every observable action of `Put` (registry
query, chunk skip with its stream discard, chunk transfer, progress
callback invocation, create-file call) is recorded in an event trace.
-/

namespace Teldrive

/-- Hexadecimal digit character, lower case, as produced by Go
`hex.EncodeToString`. -/
def hexDigitChar (n : Nat) : Char :=
  if n < 10 then Char.ofNat (48 + n) else Char.ofNat (87 + n)

/-- Fixed-width 32-digit lower-case hexadecimal rendering of a number
below 2^128 (most significant digit first). -/
def toHex32 (n : Nat) : String :=
  String.mk ((List.range 32).map (fun i => hexDigitChar ((n / 16 ^ (31 - i)) % 16)))

/-- Deterministic polynomial hash of a string into [0, 2^128). -/
def polyHash (text : String) : Nat :=
  text.data.foldl (fun acc c => (acc * 131 + c.toNat + 1) % (2 ^ 128)) 7

/-- Modelled from the spec: `getMD5Hash` in driver.go computes
`hex.EncodeToString(md5.Sum([]byte(text)))`; `crypto/md5` is Go
standard-library code outside this repository.  The spec only relies on
it being a fixed pure function producing a fixed-length digest string
("a fixed-length deterministic digest string ... pure function, no side
effects"), so the digest core is modelled by a fixed deterministic
128-bit polynomial string hash rendered as 32 hex digits.  No theorem
below depends on the digest values themselves. -/
def getMD5Hash (text : String) : String :=
  toHex32 (polyHash text)

/-- Go `fmt.Sprintf("%03d", n)` for the positive chunk ordinals used by
the driver: decimal digits, left-padded with zeros to width 3. -/
def pad3 (n : Int) : String :=
  let s := toString n
  String.mk (List.replicate (3 - s.length) '0') ++ s

/-- Part metadata as decoded from the remote service
(struct `PartFile` in driver.go). -/
structure PartFile where
  name : String
  partId : Int
  partNo : Int
  totalParts : Int
  size : Int
  channelID : Int
  encrypted : Bool
  salt : String
deriving Repr, DecidableEq, Inhabited

/-- Manifest entry sent to the create-file endpoint
(struct `FilePart` in driver.go). -/
structure FilePart where
  id : Int
  salt : String
deriving Repr, DecidableEq

/-- Driver configuration (struct `Addition` in driver.go).  `ChunkSize`
is in megabytes; string fields not observed by any claim (api host,
access token, channel id) are omitted from the model except where the
upload logic reads them. -/
structure Addition where
  chunkSizeMB : Int
  randomChunkName : Bool
  encryptFiles : Bool
deriving Repr, DecidableEq

/-- Response body of the create-file call (the fields of struct
`FileInfo` in driver.go that `Put` reads). -/
structure FileInfo where
  id : String
  parentId : String
deriving Repr, DecidableEq, Inhabited

/-- Fields of the driver object returned by `Put` (struct `Object` in
part_001; the modification time is threaded through unchanged and not
modelled). -/
structure ObjectInfo where
  id : String
  name : String
  size : Int
  path : String
  parentId : String
deriving Repr, DecidableEq

/-- Outcome of the registry lookup `GET /api/uploads/{id}`: either a
transport error (`err != nil` in Go) or a response with a status code
and the result of json-decoding its body into a list of parts (`none`
when the body is unparseable). -/
inductive RegistryOutcome where
  | transportError : RegistryOutcome
  | response (status : Int) (parsed : Option (List PartFile)) : RegistryOutcome
deriving Repr, DecidableEq

/-- Outcome of one chunk transfer `POST /api/uploads/{id}`: transport
error, non-200 status (with the response text used in the error
message), 200 with an unparseable body, or 200 with a decoded
`PartFile`. -/
inductive TransferOutcome where
  | transportError (msg : String) : TransferOutcome
  | badStatus (body : String) : TransferOutcome
  | parseError (msg : String) : TransferOutcome
  | parsed (part : PartFile) : TransferOutcome
deriving Repr, DecidableEq

/-- Outcome of the create-file call `POST /api/files`. -/
inductive CommitOutcome where
  | transportError (msg : String) : CommitOutcome
  | badStatus (body : String) : CommitOutcome
  | parseError (msg : String) : CommitOutcome
  | parsed (info : FileInfo) : CommitOutcome
deriving Repr, DecidableEq

/-- Environment of one `Put` call: responses of the remote collaborators
(the transfer outcome and the uuid draw are indexed by the chunk number
at which the call happens, each loop iteration performing at most one of
each), and the total number of bytes the source stream can supply
(`streamAvail`; a well-formed caller supplies exactly `fileSize` bytes,
but the model allows a short stream). -/
structure Env where
  registry : RegistryOutcome
  transfer : Int → TransferOutcome
  uuid : Int → String
  commit : CommitOutcome
  streamAvail : Int

/-- Observable events of one `Put` call, in order.  `skipChunk` records
the skip of an already-present chunk: `requested` is the byte count
passed to `io.CopyN` (the recorded part size) and `discarded` the byte
count the stream actually supplied.  `chunkTransfer` records the upload
of one chunk with its derived name and planned byte length.
`progressReport` records one invocation of the progress callback. -/
inductive Event where
  | registryQuery (uploadID : String) : Event
  | skipChunk (chunkNo : Int) (requested discarded : Int) : Event
  | chunkTransfer (chunkNo : Int) (chunkName : String) (n : Int) : Event
  | progressReport (value : ℚ) : Event
  | commitCall (parts : List FilePart) : Event
deriving Repr, DecidableEq

/-- Errors returned by `Put`, one constructor per `return nil, fmt.Errorf`
site (the carried string reproduces the variable text interpolated into
the Go message; none of the messages contains the chunk number). -/
inductive UploadError where
  | unsupportedSize : UploadError
  | transferTransport (msg : String) : UploadError
  | transferBadStatus (body : String) : UploadError
  | transferParse (msg : String) : UploadError
  | transferMissingPartId : UploadError
  | commitTransport (msg : String) : UploadError
  | commitBadStatus (body : String) : UploadError
  | commitParse (msg : String) : UploadError
deriving Repr, DecidableEq

/-- Mutable state of the upload loop in `Put`: the `uploadedSize` and
`partsToCommit` variables, the number of bytes consumed from the source
stream so far, and the event trace. -/
structure LoopSt where
  uploadedSize : Int
  partsToCommit : List PartFile
  consumed : Int
  trace : List Event
deriving Repr, DecidableEq

instance exceptDecEq {ε α : Type} [DecidableEq ε] [DecidableEq α] :
    DecidableEq (Except ε α) := fun
  | .ok a, .ok b =>
    if h : a = b then .isTrue (by rw [h])
    else .isFalse (by intro he; cases he; exact h rfl)
  | .ok _, .error _ => .isFalse (by intro h; cases h)
  | .error _, .ok _ => .isFalse (by intro h; cases h)
  | .error e, .error f =>
    if h : e = f then .isTrue (by rw [h])
    else .isFalse (by intro he; cases he; exact h rfl)

/-- Result of a whole `Put` call: the returned value and the trace. -/
structure PutRun where
  result : Except UploadError ObjectInfo
  trace : List Event
deriving Repr, DecidableEq

/-- Go map built by `for _, part := range parts { existingChunks[part.PartNo] = part }`:
lookup returns the last part of the list carrying the given part
number. -/
def buildExisting (parts : List PartFile) (k : Int) : Option PartFile :=
  parts.foldl (fun acc part => if part.partNo = k then some part else acc) none

/-- Existing-chunk map derived from the registry lookup: filled only when
the query had no transport error, returned status 200 and its body
parsed (`if err == nil && resp.StatusCode() == 200 { ... }` in Put). -/
def existingChunksOf (reg : RegistryOutcome) : Int → Option PartFile :=
  match reg with
  | .transportError => fun _ => none
  | .response status parsed =>
    if status = 200 then
      match parsed with
      | some parts => buildExisting parts
      | none => fun _ => none
    else fun _ => none

/-- Progress value passed to the callback:
`float64(uploadedSize) / float64(fileSize) * 100`, in exact rational
arithmetic. -/
def progressRatio (uploadedSize fileSize : Int) : ℚ :=
  (uploadedSize : ℚ) / (fileSize : ℚ) * 100

/-- Chunk name derivation in Put: random digest when `RandomChunkName`
is set, `<fileName>.part.<%03d chunkNo>` when there is more than one
chunk, the bare file name otherwise.  `env.uuid chunkNo` stands for the
`uuid.New().String()` draw made at this loop iteration. -/
def chunkNameOf (cfg : Addition) (env : Env) (fileName : String)
    (totalChunks chunkNo : Int) : String :=
  if cfg.randomChunkName then getMD5Hash (env.uuid chunkNo)
  else if totalChunks > 1 then fileName ++ ".part." ++ pad3 chunkNo
  else fileName

/-- Static context of the upload loop (everything `Put` fixes before the
loop starts). -/
structure Ctx where
  cfg : Addition
  env : Env
  fileName : String
  fileSize : Int
  chunkSize : Int
  totalChunks : Int
  existing : Int → Option PartFile

/-- One iteration of the upload loop of `Put` for chunk `chunkNo`.

If the registry holds the chunk, `io.CopyN(io.Discard, file, existing.Size)`
discards up to the recorded size from the stream (its result is ignored),
the recorded part is appended and progress advances by the recorded size.
Otherwise the planned length `n` is computed (`fileSize - uploadedSize`
for the final chunk, `chunkSize` for any other), the chunk name derived,
`io.LimitReader(file, n)` consumes up to `n` bytes, and the transfer
response is examined: a transport error, a non-200 status, an
unparseable body, or a decoded part with `PartId == 0` each abort the
upload; on success the part is appended and progress advances by `n`. -/
def stepChunk (ctx : Ctx) (chunkNo : Int) (st : LoopSt) :
    Except (UploadError × LoopSt) LoopSt :=
  match ctx.existing chunkNo with
  | some ex =>
    let discarded := max 0 (min ex.size (ctx.env.streamAvail - st.consumed))
    let uploaded := st.uploadedSize + ex.size
    .ok { uploadedSize := uploaded
          partsToCommit := st.partsToCommit ++ [ex]
          consumed := st.consumed + discarded
          trace := st.trace ++ [.skipChunk chunkNo ex.size discarded,
                                .progressReport (progressRatio uploaded ctx.fileSize)] }
  | none =>
    let n := if chunkNo = ctx.totalChunks then ctx.fileSize - st.uploadedSize else ctx.chunkSize
    let name := chunkNameOf ctx.cfg ctx.env ctx.fileName ctx.totalChunks chunkNo
    let readBytes := max 0 (min n (ctx.env.streamAvail - st.consumed))
    let st1 : LoopSt :=
      { st with consumed := st.consumed + readBytes
                trace := st.trace ++ [.chunkTransfer chunkNo name n] }
    match ctx.env.transfer chunkNo with
    | .transportError msg => .error (.transferTransport msg, st1)
    | .badStatus body => .error (.transferBadStatus body, st1)
    | .parseError msg => .error (.transferParse msg, st1)
    | .parsed part =>
      if part.partId = 0 then .error (.transferMissingPartId, st1)
      else
        let uploaded := st1.uploadedSize + n
        .ok { uploadedSize := uploaded
              partsToCommit := st1.partsToCommit ++ [part]
              consumed := st1.consumed
              trace := st1.trace ++ [.progressReport (progressRatio uploaded ctx.fileSize)] }

/-- The upload loop `for chunkNo := 1; chunkNo <= int(totalChunks); chunkNo++`,
over an explicit list of chunk numbers; a step error aborts the rest. -/
def runChunks (ctx : Ctx) : List Int → LoopSt → Except (UploadError × LoopSt) LoopSt
  | [], st => .ok st
  | c :: rest, st =>
    match stepChunk ctx c st with
    | .error e => .error e
    | .ok st' => runChunks ctx rest st'

/-- Chunk numbers 1, 2, ..., totalChunks (empty when totalChunks ≤ 0,
matching the Go loop bounds). -/
def chunkNos (totalChunks : Int) : List Int :=
  (List.range totalChunks.toNat).map (fun (i : Nat) => (i : Int) + 1)

/-- Insertion step of the sort of `partsToCommit` by part number. -/
def insertPart (p : PartFile) : List PartFile → List PartFile
  | [] => [p]
  | q :: rest => if p.partNo ≤ q.partNo then p :: q :: rest else q :: insertPart p rest

/-- Model of `sort.Slice(partsToCommit, func(i, j) { return p[i].PartNo < p[j].PartNo })`:
a sort by ascending part number (Go sort.Slice is unstable, so the order
of entries sharing a part number is unspecified; every claim below only
concerns runs in which part numbers are pairwise distinct, where all
sorts by part number agree). -/
def sortByPartNo (l : List PartFile) : List PartFile :=
  l.foldr insertPart []

/-- Manifest entry extraction: `FilePart{ID: part.PartId, Salt: part.Salt}`. -/
def toFilePart (p : PartFile) : FilePart :=
  { id := p.partId, salt := p.salt }

/-- Session identity string of Put:
`getMD5Hash(fmt.Sprintf("%s:%s:%d:%d", parentPath, fileName, fileSize, userId))`. -/
def uploadIDOf (parentPath fileName : String) (fileSize userId : Int) : String :=
  getMD5Hash (parentPath ++ ":" ++ fileName ++ ":" ++ toString fileSize ++ ":" ++ toString userId)

/-- Modelled from the spec: Go `path.Join` (standard-library code) on the
argument shapes Put uses, namely an already clean parent path (either
empty or slash-led) and a bare file name: the empty parent yields the
bare name, otherwise the two are joined with one slash. -/
def pathJoin (a b : String) : String :=
  if a = "" then b else a ++ "/" ++ b

/-- Chunk size in bytes: `chunkSize := d.ChunkSize * 1024 * 1024`. -/
def chunkSizeOf (cfg : Addition) : Int :=
  cfg.chunkSizeMB * 1024 * 1024

/-- Total chunk count:
`totalChunks := (fileSize + chunkSize - 1) / chunkSize` with Go integer
division (truncation toward zero, `Int.tdiv`). -/
def totalChunksOf (fileSize chunkSize : Int) : Int :=
  Int.tdiv (fileSize + chunkSize - 1) chunkSize

/-- Loop context assembled by `Put` before its chunk loop. -/
def ctxOf (cfg : Addition) (env : Env) (fileName : String) (fileSize : Int) : Ctx :=
  { cfg := cfg, env := env, fileName := fileName, fileSize := fileSize
    chunkSize := chunkSizeOf cfg
    totalChunks := totalChunksOf fileSize (chunkSizeOf cfg)
    existing := existingChunksOf env.registry }

/-- Shallow embedding of `Put` in driver.go.  The destination directory
is represented by its path, the file streamer by its name, size and the
stream byte supply in `env`; the update-progress callback is recorded in
the trace.  `userId` is the owner id obtained by `Init`. -/
def PutModel (cfg : Addition) (userId : Int) (dstPath fileName : String)
    (fileSize : Int) (env : Env) : PutRun :=
  let parentPath := if dstPath = "/" then "" else dstPath
  if fileSize < 0 then
    { result := .error .unsupportedSize, trace := [] }
  else
    let uploadID := uploadIDOf parentPath fileName fileSize userId
    let ctx : Ctx := ctxOf cfg env fileName fileSize
    let st0 : LoopSt :=
      { uploadedSize := 0, partsToCommit := [], consumed := 0
        trace := [.registryQuery uploadID] }
    match runChunks ctx (chunkNos ctx.totalChunks) st0 with
    | .error (e, st) => { result := .error e, trace := st.trace }
    | .ok st =>
      let sorted := sortByPartNo st.partsToCommit
      let fileChunks := sorted.map toFilePart
      let trace := st.trace ++ [.commitCall fileChunks]
      match env.commit with
      | .transportError msg => { result := .error (.commitTransport msg), trace := trace }
      | .badStatus body => { result := .error (.commitBadStatus body), trace := trace }
      | .parseError msg => { result := .error (.commitParse msg), trace := trace }
      | .parsed info =>
        { result := .ok { id := info.id, name := fileName, size := fileSize
                          path := pathJoin parentPath fileName, parentId := info.parentId }
          trace := trace }

/-! Specification-side quantities and trace observers used by the
claims. -/

/-- Planned byte length of chunk `k` (1-based): the configured chunk
size for every chunk but the last, and the remainder for the last. -/
def plannedLen (fileSize chunkSize totalChunks k : Int) : Int :=
  if k = totalChunks then fileSize - chunkSize * (totalChunks - 1) else chunkSize

/-- Sum of the planned lengths of chunks `1..k` (for `0 ≤ k ≤ totalChunks`). -/
def sumPlanned (fileSize chunkSize totalChunks k : Int) : Int :=
  if k = totalChunks then fileSize else chunkSize * k

/-- Bytes the stream yields for the discard or bounded read of chunk `k`
in a run whose previous chunks all requested their planned lengths:
`max 0 (min requested (avail - consumedBefore))` with
`consumedBefore = min (max 0 avail) (sumPlanned (k-1))`. -/
def discardAt (avail fileSize chunkSize totalChunks k : Int) : Int :=
  max 0 (min (plannedLen fileSize chunkSize totalChunks k)
    (avail - min (max 0 avail) (sumPlanned fileSize chunkSize totalChunks (k - 1))))

/-- Part that ends up in `partsToCommit` for chunk `k` in a run where
every transfer succeeds: the registry part if the chunk was skipped,
otherwise the decoded transfer response. -/
def partAt (existing : Int → Option PartFile) (env : Env) (k : Int) : PartFile :=
  match existing k with
  | some ex => ex
  | none =>
    match env.transfer k with
    | .parsed p => p
    | _ => default

/-- Transfer outcome that lets Put proceed: status 200, parseable body,
non-zero part id. -/
def transferOk : TransferOutcome → Bool
  | .parsed p => p.partId != 0
  | _ => false

/-- Error Put returns for a failing transfer outcome. -/
def errorOfTransfer : TransferOutcome → UploadError
  | .transportError msg => .transferTransport msg
  | .badStatus body => .transferBadStatus body
  | .parseError msg => .transferParse msg
  | .parsed _ => .transferMissingPartId

/-- Transfer response that echoes the requested part number (the remote
service contract: the decoded part carries the `partNo` sent in the
query parameters). -/
def transferEcho : TransferOutcome → Int → Bool
  | .parsed p, k => p.partNo == k
  | _, _ => true

/-- Registry part recorded for chunk `k` (if any) carries the planned
byte length of chunk `k` (what a previous run of the same plan stored). -/
def sizeOkAt (existing : Int → Option PartFile) (fileSize chunkSize totalChunks k : Int) : Bool :=
  match existing k with
  | some ex => ex.size == plannedLen fileSize chunkSize totalChunks k
  | none => true

/-- Registry lookups Put treats as "no existing parts": transport error,
non-200 status, or an unparseable body. -/
def registryFailed : RegistryOutcome → Bool
  | .transportError => true
  | .response status parsed => status != 200 || parsed.isNone

/-- Values passed to the progress callback, in order. -/
def progressValues (tr : List Event) : List ℚ :=
  tr.filterMap fun e => match e with | .progressReport v => some v | _ => none

/-- Chunk numbers of the transfer requests issued, in order. -/
def transferredChunks (tr : List Event) : List Int :=
  tr.filterMap fun e => match e with | .chunkTransfer k _ _ => some k | _ => none

/-- Chunk number and derived chunk name of each transfer request. -/
def transferPairs (tr : List Event) : List (Int × String) :=
  tr.filterMap fun e => match e with | .chunkTransfer k name _ => some (k, name) | _ => none

/-- Byte lengths of the transfer requests issued, in order. -/
def transferLens (tr : List Event) : List Int :=
  tr.filterMap fun e => match e with | .chunkTransfer _ _ n => some n | _ => none

/-- Session identifiers of the registry queries issued. -/
def registryIds (tr : List Event) : List String :=
  tr.filterMap fun e => match e with | .registryQuery i => some i | _ => none

/-- Manifests of the create-file calls issued. -/
def commitManifests (tr : List Event) : List (List FilePart) :=
  tr.filterMap fun e => match e with | .commitCall ps => some ps | _ => none

/-- Event with the stream-dependent discard count erased (used to state
that a run does not depend on how many bytes the stream could supply). -/
def withoutDiscard : Event → Event
  | .skipChunk k r _ => .skipChunk k r 0
  | e => e

/-- Trace of a loop outcome, whether it aborted or not. -/
def traceOf : Except (UploadError × LoopSt) LoopSt → List Event
  | .ok st => st.trace
  | .error (_, st) => st.trace

/-- Events the loop body appends for chunk `k` when it does not abort
there: a skip (with the stream discard) or a transfer, followed by one
progress report. -/
def eventsAt (ctx : Ctx) (k : Int) : List Event :=
  match ctx.existing k with
  | some ex =>
    [.skipChunk k ex.size (discardAt ctx.env.streamAvail ctx.fileSize ctx.chunkSize ctx.totalChunks k),
     .progressReport (progressRatio (sumPlanned ctx.fileSize ctx.chunkSize ctx.totalChunks k) ctx.fileSize)]
  | none =>
    [.chunkTransfer k (chunkNameOf ctx.cfg ctx.env ctx.fileName ctx.totalChunks k)
       (plannedLen ctx.fileSize ctx.chunkSize ctx.totalChunks k),
     .progressReport (progressRatio (sumPlanned ctx.fileSize ctx.chunkSize ctx.totalChunks k) ctx.fileSize)]

/-- Chunk numbers `1..j` as integers. -/
def upTo (j : Nat) : List Int :=
  (List.range j).map (fun (i : Nat) => (i : Int) + 1)

/-- Loop state after the chunks `1..j` of a well-formed run: uploaded
bytes, accumulated parts, consumed stream bytes and the trace appended
so far. -/
def stateAt (ctx : Ctx) (T0 : List Event) (P0 : List PartFile) (j : Nat) : LoopSt :=
  { uploadedSize := sumPlanned ctx.fileSize ctx.chunkSize ctx.totalChunks j
    partsToCommit := P0 ++ (upTo j).map (partAt ctx.existing ctx.env)
    consumed := min (max 0 ctx.env.streamAvail) (sumPlanned ctx.fileSize ctx.chunkSize ctx.totalChunks j)
    trace := T0 ++ (upTo j).flatMap (eventsAt ctx) }

/-- Value Put returns once it reaches the create-file call. -/
def commitResult (env : Env) (fileName : String) (fileSize : Int)
    (parentPath : String) : Except UploadError ObjectInfo :=
  match env.commit with
  | .transportError msg => .error (.commitTransport msg)
  | .badStatus body => .error (.commitBadStatus body)
  | .parseError msg => .error (.commitParse msg)
  | .parsed info =>
    .ok { id := info.id, name := fileName, size := fileSize
          path := pathJoin parentPath fileName, parentId := info.parentId }

/-! Arithmetic facts about the chunk plan. -/

theorem totalChunksOf_eq_ediv {S C : Int} (hC : 0 < C) (hS : 0 ≤ S) :
    totalChunksOf S C = (S + C - 1) / C := by
  unfold totalChunksOf
  exact Int.tdiv_eq_ediv (by omega) (by omega)

theorem le_mul_totalChunks {S C : Int} (hC : 0 < C) (hS : 0 ≤ S) :
    S ≤ C * totalChunksOf S C := by
  rw [totalChunksOf_eq_ediv hC hS]
  have h := (Int.ediv_lt_iff_lt_mul hC).mp
    (lt_add_one ((S + C - 1) / C))
  rw [add_mul] at h
  nlinarith [h]

theorem mul_pred_totalChunks_lt {S C : Int} (hC : 0 < C) (hS : 0 ≤ S) :
    C * (totalChunksOf S C - 1) < S := by
  rw [totalChunksOf_eq_ediv hC hS]
  have h := (Int.le_ediv_iff_mul_le hC).mpr (le_refl (((S + C - 1) / C) * C))
  nlinarith [(Int.le_ediv_iff_mul_le hC).mp (le_refl ((S + C - 1) / C))]

theorem totalChunks_nonneg {S C : Int} (hC : 0 < C) (hS : 0 ≤ S) :
    0 ≤ totalChunksOf S C := by
  rw [totalChunksOf_eq_ediv hC hS]
  exact Int.ediv_nonneg (by omega) (by omega)

theorem fileSize_eq_zero_of_totalChunks_eq_zero {S C : Int} (hC : 0 < C) (hS : 0 ≤ S)
    (h : totalChunksOf S C = 0) : S = 0 := by
  have := le_mul_totalChunks hC hS
  rw [h] at this
  omega

theorem one_le_totalChunks {S C : Int} (hC : 0 < C) (hS : 0 < S) :
    1 ≤ totalChunksOf S C := by
  by_contra h
  have h0 : totalChunksOf S C ≤ 0 := by omega
  have hS0 : 0 ≤ S := le_of_lt hS
  have := le_mul_totalChunks hC hS0
  nlinarith

theorem plannedLen_pos {S C tc k : Int} (hC : 0 < C) (hS : 0 ≤ S)
    (htc : tc = totalChunksOf S C) : 0 < plannedLen S C tc k := by
  unfold plannedLen
  split
  · have := mul_pred_totalChunks_lt hC hS
    rw [← htc] at this
    omega
  · exact hC

theorem sumPlanned_le {S C tc k : Int} (hC : 0 < C) (hS : 0 ≤ S)
    (htc : tc = totalChunksOf S C) (hk0 : 0 ≤ k) (hk : k ≤ tc) :
    sumPlanned S C tc k ≤ S := by
  unfold sumPlanned
  split
  · exact le_refl S
  · have hklt : k ≤ tc - 1 := by omega
    have h1 : C * k ≤ C * (tc - 1) := by
      exact mul_le_mul_of_nonneg_left hklt (by omega)
    have h2 := mul_pred_totalChunks_lt hC hS
    rw [← htc] at h2
    omega

theorem sumPlanned_lt {S C tc k : Int} (hC : 0 < C) (hS : 0 ≤ S)
    (htc : tc = totalChunksOf S C) (hk0 : 0 ≤ k) (hk : k < tc) :
    sumPlanned S C tc k < S := by
  unfold sumPlanned
  rw [if_neg (by omega)]
  have h1 : C * k ≤ C * (tc - 1) := mul_le_mul_of_nonneg_left (by omega) (by omega)
  have h2 := mul_pred_totalChunks_lt hC hS
  rw [← htc] at h2
  omega

theorem sumPlanned_nonneg {S C tc k : Int} (hC : 0 < C) (hS : 0 ≤ S)
    (hk0 : 0 ≤ k) : 0 ≤ sumPlanned S C tc k := by
  unfold sumPlanned
  split
  · exact hS
  · positivity

theorem sumPlanned_zero {S C tc : Int} (hC : 0 < C) (hS : 0 ≤ S)
    (htc : tc = totalChunksOf S C) : sumPlanned S C tc 0 = 0 := by
  unfold sumPlanned
  split
  · exact fileSize_eq_zero_of_totalChunks_eq_zero hC hS (by omega)
  · ring

theorem sumPlanned_last {S C tc : Int} : sumPlanned S C tc tc = S := by
  unfold sumPlanned
  rw [if_pos rfl]

theorem sumPlanned_step {S C tc k : Int} (hC : 0 < C) (hS : 0 ≤ S)
    (htc : tc = totalChunksOf S C) (hk0 : 0 ≤ k) (hk : k < tc) :
    sumPlanned S C tc k + plannedLen S C tc (k + 1) = sumPlanned S C tc (k + 1) := by
  unfold sumPlanned plannedLen
  rw [if_neg (by omega)]
  by_cases h : k + 1 = tc
  · rw [if_pos h, if_pos h, ← h]
    ring
  · rw [if_neg h, if_neg h]
    ring

theorem sumPlanned_mono {S C tc a b : Int} (hC : 0 < C) (hS : 0 ≤ S)
    (htc : tc = totalChunksOf S C) (ha : 0 ≤ a) (hab : a ≤ b) (hb : b ≤ tc) :
    sumPlanned S C tc a ≤ sumPlanned S C tc b := by
  by_cases h : b = tc
  · subst h
    rw [sumPlanned_last]
    exact sumPlanned_le hC hS htc ha hab
  · unfold sumPlanned
    rw [if_neg h, if_neg (by omega)]
    exact mul_le_mul_of_nonneg_left hab (by omega)

theorem transferLen_eq_plannedLen {S C tc k : Int} (hC : 0 < C) (hS : 0 ≤ S)
    (htc : tc = totalChunksOf S C) (hk0 : 0 ≤ k) (hk : k < tc) :
    (if k + 1 = tc then S - sumPlanned S C tc k else C) = plannedLen S C tc (k + 1) := by
  unfold sumPlanned plannedLen
  by_cases h : k + 1 = tc
  · rw [if_pos h, if_pos h, if_neg (by omega), ← h]
    ring
  · rw [if_neg h, if_neg h]

theorem totalChunksOf_eq_ceil {S C : Int} (hC : 0 < C) (hS : 0 ≤ S) :
    (totalChunksOf S C : Int) = ⌈(S : ℚ) / (C : ℚ)⌉ := by
  symm
  rw [Int.ceil_eq_iff]
  have hCQ : (0 : ℚ) < (C : ℚ) := by exact_mod_cast hC
  constructor
  · rw [lt_div_iff₀ hCQ]
    have h0 := mul_pred_totalChunks_lt hC hS
    have h1 : (C : ℚ) * ((totalChunksOf S C : ℚ) - 1) < (S : ℚ) := by
      exact_mod_cast h0
    nlinarith [h1]
  · rw [div_le_iff₀ hCQ]
    have h0 := le_mul_totalChunks hC hS
    have h1 : (S : ℚ) ≤ (C : ℚ) * (totalChunksOf S C : ℚ) := by
      exact_mod_cast h0
    nlinarith [h1]

/-! Backbone lemmas about the upload loop. -/

theorem runChunks_append (ctx : Ctx) (l₁ l₂ : List Int) (st : LoopSt) :
    runChunks ctx (l₁ ++ l₂) st =
      match runChunks ctx l₁ st with
      | .error e => .error e
      | .ok st' => runChunks ctx l₂ st' := by
  induction l₁ generalizing st with
  | nil => simp [runChunks]
  | cons c rest ih =>
    simp only [List.cons_append, runChunks]
    cases stepChunk ctx c st with
    | error e => rfl
    | ok st' => exact ih st'

/-- Events the loop body may append while processing the chunks of `l`:
no registry query, no create-file call; every skip is of a chunk the
registry holds, with the recorded size as the requested byte count;
every transfer is of a chunk the registry does not hold, named by the
naming policy. -/
def stepEventOk (ctx : Ctx) (l : List Int) : Event → Prop
  | .registryQuery _ => False
  | .commitCall _ => False
  | .progressReport _ => True
  | .skipChunk k r _ => k ∈ l ∧ ∃ ex, ctx.existing k = some ex ∧ r = ex.size
  | .chunkTransfer k name _ =>
    k ∈ l ∧ ctx.existing k = none ∧
      name = chunkNameOf ctx.cfg ctx.env ctx.fileName ctx.totalChunks k

theorem stepEventOk_weaken {ctx : Ctx} {l : List Int} (c : Int) {e : Event}
    (h : stepEventOk ctx l e) : stepEventOk ctx (c :: l) e := by
  cases e with
  | registryQuery _ => exact h
  | commitCall _ => exact h
  | progressReport _ => exact h
  | skipChunk k r d => exact ⟨List.mem_cons_of_mem c h.1, h.2⟩
  | chunkTransfer k name n => exact ⟨List.mem_cons_of_mem c h.1, h.2.1, h.2.2⟩

theorem runChunks_trace_shape (ctx : Ctx) (l : List Int) (st : LoopSt) :
    ∃ t, traceOf (runChunks ctx l st) = st.trace ++ t ∧
      (∀ e ∈ t, stepEventOk ctx l e) ∧ List.Sublist (transferredChunks t) l := by
  induction l generalizing st with
  | nil =>
    refine ⟨[], by simp [runChunks, traceOf], by simp, by simp [transferredChunks]⟩
  | cons c rest ih =>
    by_cases hex : ∃ ex, ctx.existing c = some ex
    · obtain ⟨ex, hex⟩ := hex
      have hstep : stepChunk ctx c st = .ok
          { uploadedSize := st.uploadedSize + ex.size
            partsToCommit := st.partsToCommit ++ [ex]
            consumed := st.consumed + max 0 (min ex.size (ctx.env.streamAvail - st.consumed))
            trace := st.trace ++ [.skipChunk c ex.size
                (max 0 (min ex.size (ctx.env.streamAvail - st.consumed))),
              .progressReport (progressRatio (st.uploadedSize + ex.size) ctx.fileSize)] } := by
        simp [stepChunk, hex]
      obtain ⟨t', ht', hok', hsub'⟩ := ih _
      refine ⟨[.skipChunk c ex.size
          (max 0 (min ex.size (ctx.env.streamAvail - st.consumed))),
        .progressReport (progressRatio (st.uploadedSize + ex.size) ctx.fileSize)] ++ t',
        ?_, ?_, ?_⟩
      · simp only [runChunks, hstep]
        rw [ht']
        simp
      · intro e he
        rcases List.mem_append.mp he with h2 | h2
        · rcases List.mem_cons.mp h2 with h2 | h2
          · subst h2
            exact ⟨List.mem_cons_self c rest, ex, hex, rfl⟩
          · rw [List.mem_singleton] at h2
            subst h2
            trivial
        · exact stepEventOk_weaken c (hok' e h2)
      · simp only [transferredChunks, List.filterMap_append]
        simp only [List.filterMap_cons, List.filterMap_nil]
        exact hsub'.cons c
    · push_neg at hex
      have hnone : ctx.existing c = none := by
        cases h : ctx.existing c with
        | none => rfl
        | some ex => exact absurd h (hex ex)
      set name := chunkNameOf ctx.cfg ctx.env ctx.fileName ctx.totalChunks c with hname
      set n := (if c = ctx.totalChunks then ctx.fileSize - st.uploadedSize else ctx.chunkSize)
        with hn
      set st1 : LoopSt :=
        { st with consumed := st.consumed + max 0 (min n (ctx.env.streamAvail - st.consumed))
                  trace := st.trace ++ [.chunkTransfer c name n] } with hst1
      have hte : stepEventOk ctx (c :: rest) (.chunkTransfer c name n) :=
        ⟨List.mem_cons_self c rest, hnone, hname⟩
      cases htr : ctx.env.transfer c with
      | transportError msg =>
        have hstep : stepChunk ctx c st = .error (.transferTransport msg, st1) := by
          simp [stepChunk, hnone, htr, hst1, hname, hn]
        refine ⟨[.chunkTransfer c name n], ?_, ?_, ?_⟩
        · simp [runChunks, hstep, traceOf, hst1]
        · intro e he
          rw [List.mem_singleton] at he
          subst he
          exact hte
        · simp only [transferredChunks, List.filterMap_cons, List.filterMap_nil]
          exact (List.nil_sublist rest).cons₂ c
      | badStatus body =>
        have hstep : stepChunk ctx c st = .error (.transferBadStatus body, st1) := by
          simp [stepChunk, hnone, htr, hst1, hname, hn]
        refine ⟨[.chunkTransfer c name n], ?_, ?_, ?_⟩
        · simp [runChunks, hstep, traceOf, hst1]
        · intro e he
          rw [List.mem_singleton] at he
          subst he
          exact hte
        · simp only [transferredChunks, List.filterMap_cons, List.filterMap_nil]
          exact (List.nil_sublist rest).cons₂ c
      | parseError msg =>
        have hstep : stepChunk ctx c st = .error (.transferParse msg, st1) := by
          simp [stepChunk, hnone, htr, hst1, hname, hn]
        refine ⟨[.chunkTransfer c name n], ?_, ?_, ?_⟩
        · simp [runChunks, hstep, traceOf, hst1]
        · intro e he
          rw [List.mem_singleton] at he
          subst he
          exact hte
        · simp only [transferredChunks, List.filterMap_cons, List.filterMap_nil]
          exact (List.nil_sublist rest).cons₂ c
      | parsed part =>
        by_cases hid : part.partId = 0
        · have hstep : stepChunk ctx c st = .error (.transferMissingPartId, st1) := by
            simp [stepChunk, hnone, htr, hid, hst1, hname, hn]
          refine ⟨[.chunkTransfer c name n], ?_, ?_, ?_⟩
          · simp [runChunks, hstep, traceOf, hst1]
          · intro e he
            rw [List.mem_singleton] at he
            subst he
            exact hte
          · simp only [transferredChunks, List.filterMap_cons, List.filterMap_nil]
            exact (List.nil_sublist rest).cons₂ c
        · have hstep : stepChunk ctx c st = .ok
              { uploadedSize := st1.uploadedSize + n
                partsToCommit := st1.partsToCommit ++ [part]
                consumed := st1.consumed
                trace := st1.trace ++ [.progressReport
                  (progressRatio (st1.uploadedSize + n) ctx.fileSize)] } := by
            simp [stepChunk, hnone, htr, hid, hst1, hname, hn]
          obtain ⟨t', ht', hok', hsub'⟩ := ih _
          refine ⟨[.chunkTransfer c name n,
            .progressReport (progressRatio (st1.uploadedSize + n) ctx.fileSize)] ++ t',
            ?_, ?_, ?_⟩
          · simp only [runChunks, hstep]
            rw [ht']
            simp [hst1]
          · intro e he
            rcases List.mem_append.mp he with h2 | h2
            · rcases List.mem_cons.mp h2 with h2 | h2
              · subst h2
                exact hte
              · rw [List.mem_singleton] at h2
                subst h2
                trivial
            · exact stepEventOk_weaken c (hok' e h2)
          · simp only [transferredChunks, List.filterMap_append, List.filterMap_cons,
              List.filterMap_nil]
            exact hsub'.cons₂ c

theorem runChunks_ok_of_transferOk (ctx : Ctx) (l : List Int) (st : LoopSt)
    (hok : ∀ k ∈ l, ctx.existing k = none → transferOk (ctx.env.transfer k) = true) :
    ∃ st' t, runChunks ctx l st = .ok st' ∧
      st'.partsToCommit = st.partsToCommit ++ l.map (partAt ctx.existing ctx.env) ∧
      st'.trace = st.trace ++ t ∧
      transferredChunks t = l.filter (fun k => (ctx.existing k).isNone) := by
  induction l generalizing st with
  | nil => exact ⟨st, [], rfl, by simp, by simp, by simp [transferredChunks]⟩
  | cons c rest ih =>
    have hokRest : ∀ k ∈ rest, ctx.existing k = none →
        transferOk (ctx.env.transfer k) = true :=
      fun k hk => hok k (List.mem_cons_of_mem c hk)
    cases hex : ctx.existing c with
    | some ex =>
      have hstep : stepChunk ctx c st = .ok
          { uploadedSize := st.uploadedSize + ex.size
            partsToCommit := st.partsToCommit ++ [ex]
            consumed := st.consumed + max 0 (min ex.size (ctx.env.streamAvail - st.consumed))
            trace := st.trace ++ [.skipChunk c ex.size
                (max 0 (min ex.size (ctx.env.streamAvail - st.consumed))),
              .progressReport (progressRatio (st.uploadedSize + ex.size) ctx.fileSize)] } := by
        simp [stepChunk, hex]
      obtain ⟨st', t', h1, h2, h3, h4⟩ := ih _ hokRest
      refine ⟨st', [.skipChunk c ex.size
          (max 0 (min ex.size (ctx.env.streamAvail - st.consumed))),
        .progressReport (progressRatio (st.uploadedSize + ex.size) ctx.fileSize)] ++ t',
        ?_, ?_, ?_, ?_⟩
      · simp only [runChunks, hstep]
        exact h1
      · rw [h2]
        simp [partAt, hex]
      · rw [h3]
        simp
      · simp only [transferredChunks, List.filterMap_append, List.filterMap_cons,
          List.filterMap_nil, List.filter_cons]
        have : (Option.isNone (ctx.existing c)) = false := by rw [hex]; rfl
        rw [this]
        simpa [transferredChunks] using h4
    | none =>
      have htok := hok c (List.mem_cons_self c rest) hex
      cases htr : ctx.env.transfer c with
      | transportError msg => rw [htr] at htok; simp [transferOk] at htok
      | badStatus body => rw [htr] at htok; simp [transferOk] at htok
      | parseError msg => rw [htr] at htok; simp [transferOk] at htok
      | parsed p =>
        rw [htr] at htok
        have hid : ¬ p.partId = 0 := by
          simpa [transferOk] using htok
        set name := chunkNameOf ctx.cfg ctx.env ctx.fileName ctx.totalChunks c with hname
        set n := (if c = ctx.totalChunks then ctx.fileSize - st.uploadedSize else ctx.chunkSize)
          with hn
        have hstep : stepChunk ctx c st = .ok
            { uploadedSize := st.uploadedSize + n
              partsToCommit := st.partsToCommit ++ [p]
              consumed := st.consumed + max 0 (min n (ctx.env.streamAvail - st.consumed))
              trace := st.trace ++ [.chunkTransfer c name n,
                .progressReport (progressRatio (st.uploadedSize + n) ctx.fileSize)] } := by
          simp [stepChunk, hex, htr, hid, hname, hn]
        obtain ⟨st', t', h1, h2, h3, h4⟩ := ih _ hokRest
        refine ⟨st', [.chunkTransfer c name n,
          .progressReport (progressRatio (st.uploadedSize + n) ctx.fileSize)] ++ t',
          ?_, ?_, ?_, ?_⟩
        · simp only [runChunks, hstep]
          exact h1
        · rw [h2]
          simp [partAt, hex, htr]
        · rw [h3]
          simp
        · simp only [transferredChunks, List.filterMap_append, List.filterMap_cons,
            List.filterMap_nil, List.filter_cons]
          have : (Option.isNone (ctx.existing c)) = true := by rw [hex]; rfl
          rw [this]
          simp only [List.nil_append]
          rw [show (List.filterMap (fun e => match e with
            | .chunkTransfer k _ _ => some k | _ => none) t') = transferredChunks t' from rfl, h4]
          simp

/-- Chunk numbers `j+1 .. j+m`. -/
def segFrom (j m : Nat) : List Int :=
  (List.range m).map (fun i => ((j + i : Nat) : Int) + 1)

theorem segFrom_succ (j m : Nat) :
    segFrom j (m + 1) = ((j : Int) + 1) :: segFrom (j + 1) m := by
  unfold segFrom
  rw [List.range_succ_eq_map]
  simp only [List.map_cons, List.map_map]
  refine congrArg₂ _ (by norm_num) ?_
  apply List.map_congr_left
  intro i _
  simp only [Function.comp]
  push_cast
  ring

theorem upTo_eq_segFrom (n : Nat) : upTo n = segFrom 0 n := by
  unfold upTo segFrom
  apply List.map_congr_left
  intro i _
  norm_num

theorem upTo_succ (j : Nat) : upTo (j + 1) = upTo j ++ [((j : Int) + 1)] := by
  unfold upTo
  rw [List.range_succ]
  simp

theorem chunkNos_eq_upTo (tc : Int) : chunkNos tc = upTo tc.toNat := rfl

theorem mem_upTo {j n : Nat} (h : j < n) : ((j : Int) + 1) ∈ upTo n := by
  unfold upTo
  exact List.mem_map.mpr ⟨j, List.mem_range.mpr h, rfl⟩

theorem mem_upTo_bounds {k : Int} {n : Nat} (h : k ∈ upTo n) :
    1 ≤ k ∧ k ≤ (n : Int) := by
  unfold upTo at h
  obtain ⟨i, hi, rfl⟩ := List.mem_map.mp h
  have := List.mem_range.mp hi
  omega

/-- One clean loop iteration advances `stateAt j` to `stateAt (j+1)`:
the skip branch consumes the recorded (= planned) size, the transfer
branch sends the planned length, and both report the cumulative planned
ratio. -/
theorem stepChunk_clean (ctx : Ctx) (T0 : List Event) (P0 : List PartFile)
    (hC : 0 < ctx.chunkSize) (hS : 0 ≤ ctx.fileSize)
    (htc : ctx.totalChunks = totalChunksOf ctx.fileSize ctx.chunkSize)
    (hsizes : ∀ k ∈ chunkNos ctx.totalChunks,
      sizeOkAt ctx.existing ctx.fileSize ctx.chunkSize ctx.totalChunks k = true)
    (hok : ∀ k ∈ chunkNos ctx.totalChunks, ctx.existing k = none →
      transferOk (ctx.env.transfer k) = true)
    (j : Nat) (hj : j < ctx.totalChunks.toNat) :
    stepChunk ctx ((j : Int) + 1) (stateAt ctx T0 P0 j) =
      .ok (stateAt ctx T0 P0 (j + 1)) := by
  have htc0 : 0 ≤ ctx.totalChunks := htc ▸ totalChunks_nonneg hC hS
  have hjlt : (j : Int) < ctx.totalChunks := by omega
  have hmem : ((j : Int) + 1) ∈ chunkNos ctx.totalChunks := by
    rw [chunkNos_eq_upTo]
    exact mem_upTo (by omega)
  have hplan : 0 < plannedLen ctx.fileSize ctx.chunkSize ctx.totalChunks ((j : Int) + 1) :=
    plannedLen_pos hC hS htc
  have hsum0 : 0 ≤ sumPlanned ctx.fileSize ctx.chunkSize ctx.totalChunks (j : Int) :=
    sumPlanned_nonneg hC hS (by omega)
  have hsumstep : sumPlanned ctx.fileSize ctx.chunkSize ctx.totalChunks (j : Int) +
      plannedLen ctx.fileSize ctx.chunkSize ctx.totalChunks ((j : Int) + 1) =
      sumPlanned ctx.fileSize ctx.chunkSize ctx.totalChunks ((j : Int) + 1) :=
    sumPlanned_step hC hS htc (by omega) hjlt
  have hsub : ((j : Int) + 1) - 1 = (j : Int) := by ring
  cases hex : ctx.existing ((j : Int) + 1) with
  | some ex =>
    have hsz : ex.size = plannedLen ctx.fileSize ctx.chunkSize ctx.totalChunks ((j : Int) + 1) := by
      have h := hsizes _ hmem
      simp only [sizeOkAt, hex] at h
      exact eq_of_beq h
    have h1 : stepChunk ctx ((j : Int) + 1) (stateAt ctx T0 P0 j) = .ok
        { uploadedSize := (stateAt ctx T0 P0 j).uploadedSize + ex.size
          partsToCommit := (stateAt ctx T0 P0 j).partsToCommit ++ [ex]
          consumed := (stateAt ctx T0 P0 j).consumed +
            max 0 (min ex.size (ctx.env.streamAvail - (stateAt ctx T0 P0 j).consumed))
          trace := (stateAt ctx T0 P0 j).trace ++ [.skipChunk ((j : Int) + 1) ex.size
              (max 0 (min ex.size (ctx.env.streamAvail - (stateAt ctx T0 P0 j).consumed))),
            .progressReport (progressRatio ((stateAt ctx T0 P0 j).uploadedSize + ex.size)
              ctx.fileSize)] } := by
      simp [stepChunk, hex]
    rw [h1]
    congr 1
    simp only [stateAt, upTo_succ, Nat.cast_add, Nat.cast_one, List.map_append,
      List.flatMap_append, LoopSt.mk.injEq]
    refine ⟨?_, ?_, ?_, ?_⟩
    · rw [hsz]
      exact hsumstep
    · simp only [List.map_cons, List.map_nil, List.append_assoc]
      have : partAt ctx.existing ctx.env ((j : Int) + 1) = ex := by
        simp [partAt, hex]
      rw [this]
    · rw [hsz]
      omega
    · simp only [List.flatMap_cons, List.flatMap_nil, List.append_nil, List.append_assoc]
      have he : eventsAt ctx ((j : Int) + 1) = [.skipChunk ((j : Int) + 1) ex.size
          (discardAt ctx.env.streamAvail ctx.fileSize ctx.chunkSize ctx.totalChunks ((j : Int) + 1)),
        .progressReport (progressRatio
          (sumPlanned ctx.fileSize ctx.chunkSize ctx.totalChunks ((j : Int) + 1)) ctx.fileSize)] := by
        simp [eventsAt, hex]
      rw [he]
      have hd : max 0 (min ex.size (ctx.env.streamAvail -
          min (max 0 ctx.env.streamAvail) (sumPlanned ctx.fileSize ctx.chunkSize ctx.totalChunks (j : Int)))) =
          discardAt ctx.env.streamAvail ctx.fileSize ctx.chunkSize ctx.totalChunks ((j : Int) + 1) := by
        rw [discardAt, hsub, hsz]
      rw [hd, hsz, hsumstep]
  | none =>
    have htok := hok _ hmem hex
    cases htr : ctx.env.transfer ((j : Int) + 1) with
    | transportError msg => rw [htr] at htok; simp [transferOk] at htok
    | badStatus body => rw [htr] at htok; simp [transferOk] at htok
    | parseError msg => rw [htr] at htok; simp [transferOk] at htok
    | parsed p =>
      rw [htr] at htok
      have hid : ¬ p.partId = 0 := by
        simpa [transferOk] using htok
      have hn : (if ((j : Int) + 1) = ctx.totalChunks then
          ctx.fileSize - (stateAt ctx T0 P0 j).uploadedSize else ctx.chunkSize) =
          plannedLen ctx.fileSize ctx.chunkSize ctx.totalChunks ((j : Int) + 1) := by
        show (if ((j : Int) + 1) = ctx.totalChunks then
          ctx.fileSize - sumPlanned ctx.fileSize ctx.chunkSize ctx.totalChunks (j : Int)
          else ctx.chunkSize) = _
        exact transferLen_eq_plannedLen hC hS htc (by omega) hjlt
      have h1 : stepChunk ctx ((j : Int) + 1) (stateAt ctx T0 P0 j) = .ok
          { uploadedSize := (stateAt ctx T0 P0 j).uploadedSize +
              plannedLen ctx.fileSize ctx.chunkSize ctx.totalChunks ((j : Int) + 1)
            partsToCommit := (stateAt ctx T0 P0 j).partsToCommit ++ [p]
            consumed := (stateAt ctx T0 P0 j).consumed +
              max 0 (min (plannedLen ctx.fileSize ctx.chunkSize ctx.totalChunks ((j : Int) + 1))
                (ctx.env.streamAvail - (stateAt ctx T0 P0 j).consumed))
            trace := (stateAt ctx T0 P0 j).trace ++ [.chunkTransfer ((j : Int) + 1)
                (chunkNameOf ctx.cfg ctx.env ctx.fileName ctx.totalChunks ((j : Int) + 1))
                (plannedLen ctx.fileSize ctx.chunkSize ctx.totalChunks ((j : Int) + 1)),
              .progressReport (progressRatio ((stateAt ctx T0 P0 j).uploadedSize +
                plannedLen ctx.fileSize ctx.chunkSize ctx.totalChunks ((j : Int) + 1))
                ctx.fileSize)] } := by
        simp only [stepChunk, hex, htr, hn, hid, if_false]
        simp
      rw [h1]
      congr 1
      simp only [stateAt, upTo_succ, Nat.cast_add, Nat.cast_one, List.map_append,
        List.flatMap_append, LoopSt.mk.injEq]
      refine ⟨?_, ?_, ?_, ?_⟩
      · exact hsumstep
      · simp only [List.map_cons, List.map_nil, List.append_assoc]
        have : partAt ctx.existing ctx.env ((j : Int) + 1) = p := by
          simp [partAt, hex, htr]
        rw [this]
      · omega
      · simp only [List.flatMap_cons, List.flatMap_nil, List.append_nil, List.append_assoc]
        have he : eventsAt ctx ((j : Int) + 1) = [.chunkTransfer ((j : Int) + 1)
            (chunkNameOf ctx.cfg ctx.env ctx.fileName ctx.totalChunks ((j : Int) + 1))
            (plannedLen ctx.fileSize ctx.chunkSize ctx.totalChunks ((j : Int) + 1)),
          .progressReport (progressRatio
            (sumPlanned ctx.fileSize ctx.chunkSize ctx.totalChunks ((j : Int) + 1))
            ctx.fileSize)] := by
          simp [eventsAt, hex]
        rw [he, hsumstep]

/-- Clean-run characterization of the remaining loop: from `stateAt j`,
processing chunks `j+1 .. totalChunks` succeeds and ends in
`stateAt totalChunks`. -/
theorem runChunks_clean (ctx : Ctx) (T0 : List Event) (P0 : List PartFile)
    (hC : 0 < ctx.chunkSize) (hS : 0 ≤ ctx.fileSize)
    (htc : ctx.totalChunks = totalChunksOf ctx.fileSize ctx.chunkSize)
    (hsizes : ∀ k ∈ chunkNos ctx.totalChunks,
      sizeOkAt ctx.existing ctx.fileSize ctx.chunkSize ctx.totalChunks k = true)
    (hok : ∀ k ∈ chunkNos ctx.totalChunks, ctx.existing k = none →
      transferOk (ctx.env.transfer k) = true) :
    ∀ m j, j + m = ctx.totalChunks.toNat →
      runChunks ctx (segFrom j m) (stateAt ctx T0 P0 j) =
        .ok (stateAt ctx T0 P0 (j + m)) := by
  intro m
  induction m with
  | zero =>
    intro j hj
    simp [segFrom, runChunks]
  | succ m ih =>
    intro j hj
    rw [segFrom_succ]
    have hstep := stepChunk_clean ctx T0 P0 hC hS htc hsizes hok j (by omega)
    simp only [runChunks, hstep]
    have := ih (j + 1) (by omega)
    rw [this]
    congr 2
    omega

theorem stateAt_zero (ctx : Ctx) (T0 : List Event) (P0 : List PartFile)
    (hC : 0 < ctx.chunkSize) (hS : 0 ≤ ctx.fileSize)
    (htc : ctx.totalChunks = totalChunksOf ctx.fileSize ctx.chunkSize) :
    stateAt ctx T0 P0 0 =
      { uploadedSize := 0, partsToCommit := P0, consumed := 0, trace := T0 } := by
  have h0 : sumPlanned ctx.fileSize ctx.chunkSize ctx.totalChunks ((0 : Nat) : Int) = 0 := by
    rw [show (((0 : Nat) : Int)) = (0 : Int) from rfl]
    exact sumPlanned_zero hC hS htc
  simp only [stateAt, h0, upTo, List.range_zero, List.map_nil, List.flatMap_nil,
    List.append_nil, LoopSt.mk.injEq]
  refine ⟨trivial, trivial, by omega, trivial⟩

/-- Clean-run characterization of a whole `Put` call: when the size is
known, the registry parts carry the planned sizes and every needed
transfer succeeds, `Put` performs the registry query, one skip or
transfer with one progress report per planned chunk, and one create-file
call, returning the commit outcome. -/
theorem PutModel_clean (cfg : Addition) (userId : Int) (dstPath fileName : String)
    (fileSize : Int) (env : Env)
    (hM : 0 < cfg.chunkSizeMB) (hS : 0 ≤ fileSize)
    (hsizes : ∀ k ∈ chunkNos (ctxOf cfg env fileName fileSize).totalChunks,
      sizeOkAt (existingChunksOf env.registry) fileSize (chunkSizeOf cfg)
        (ctxOf cfg env fileName fileSize).totalChunks k = true)
    (hok : ∀ k ∈ chunkNos (ctxOf cfg env fileName fileSize).totalChunks,
      existingChunksOf env.registry k = none → transferOk (env.transfer k) = true) :
    PutModel cfg userId dstPath fileName fileSize env =
      { result := commitResult env fileName fileSize (if dstPath = "/" then "" else dstPath)
        trace := [.registryQuery (uploadIDOf (if dstPath = "/" then "" else dstPath)
            fileName fileSize userId)] ++
          (chunkNos (ctxOf cfg env fileName fileSize).totalChunks).flatMap
            (eventsAt (ctxOf cfg env fileName fileSize)) ++
          [.commitCall ((sortByPartNo
            ((chunkNos (ctxOf cfg env fileName fileSize).totalChunks).map
              (partAt (existingChunksOf env.registry) env))).map toFilePart)] } := by
  have hC : 0 < (ctxOf cfg env fileName fileSize).chunkSize := by
    simp only [ctxOf, chunkSizeOf]
    omega
  have htc : (ctxOf cfg env fileName fileSize).totalChunks =
      totalChunksOf (ctxOf cfg env fileName fileSize).fileSize
        (ctxOf cfg env fileName fileSize).chunkSize := rfl
  have hrun := runChunks_clean (ctxOf cfg env fileName fileSize)
    [.registryQuery (uploadIDOf (if dstPath = "/" then "" else dstPath)
      fileName fileSize userId)] []
    hC hS htc hsizes hok (ctxOf cfg env fileName fileSize).totalChunks.toNat 0 (by omega)
  rw [← upTo_eq_segFrom, ← chunkNos_eq_upTo,
    stateAt_zero _ _ _ hC hS htc] at hrun
  unfold PutModel
  rw [if_neg (by omega)]
  simp only [Nat.zero_add] at hrun
  simp only [hrun]
  cases hcm : env.commit with
  | transportError msg => simp [commitResult, hcm, stateAt, chunkNos_eq_upTo, ctxOf]
  | badStatus body => simp [commitResult, hcm, stateAt, chunkNos_eq_upTo, ctxOf]
  | parseError msg => simp [commitResult, hcm, stateAt, chunkNos_eq_upTo, ctxOf]
  | parsed info => simp [commitResult, hcm, stateAt, chunkNos_eq_upTo, ctxOf]

/-! Extraction lemmas for the observers over clean traces. -/

theorem mem_upTo_iff {k : Int} {n : Nat} : k ∈ upTo n ↔ 1 ≤ k ∧ k ≤ (n : Int) := by
  constructor
  · exact mem_upTo_bounds
  · rintro ⟨h1, h2⟩
    unfold upTo
    refine List.mem_map.mpr ⟨(k - 1).toNat, List.mem_range.mpr (by omega), by omega⟩

theorem progressValues_append (t₁ t₂ : List Event) :
    progressValues (t₁ ++ t₂) = progressValues t₁ ++ progressValues t₂ :=
  List.filterMap_append t₁ t₂ _

theorem progressValues_flatMap (ctx : Ctx) (l : List Int) :
    progressValues (l.flatMap (eventsAt ctx)) = l.map (fun k =>
      progressRatio (sumPlanned ctx.fileSize ctx.chunkSize ctx.totalChunks k) ctx.fileSize) := by
  induction l with
  | nil => rfl
  | cons c rest ih =>
    rw [List.flatMap_cons, List.map_cons, progressValues_append, ih]
    have : progressValues (eventsAt ctx c) =
        [progressRatio (sumPlanned ctx.fileSize ctx.chunkSize ctx.totalChunks c) ctx.fileSize] := by
      unfold eventsAt progressValues
      cases ctx.existing c <;> simp
    rw [this]
    rfl

theorem transferredChunks_append (t₁ t₂ : List Event) :
    transferredChunks (t₁ ++ t₂) = transferredChunks t₁ ++ transferredChunks t₂ :=
  List.filterMap_append t₁ t₂ _

theorem transferredChunks_flatMap (ctx : Ctx) (l : List Int) :
    transferredChunks (l.flatMap (eventsAt ctx)) =
      l.filter (fun k => (ctx.existing k).isNone) := by
  induction l with
  | nil => rfl
  | cons c rest ih =>
    rw [List.flatMap_cons, transferredChunks_append, ih, List.filter_cons]
    cases hex : ctx.existing c with
    | some ex =>
      have : transferredChunks (eventsAt ctx c) = [] := by
        unfold eventsAt transferredChunks
        rw [hex]
        rfl
      rw [this]
      simp [hex]
    | none =>
      have : transferredChunks (eventsAt ctx c) = [c] := by
        unfold eventsAt transferredChunks
        rw [hex]
        rfl
      rw [this]
      simp [hex]

theorem transferLens_flatMap (ctx : Ctx) (l : List Int)
    (hall : ∀ k ∈ l, ctx.existing k = none) :
    transferLens (l.flatMap (eventsAt ctx)) = l.map (fun k =>
      plannedLen ctx.fileSize ctx.chunkSize ctx.totalChunks k) := by
  induction l with
  | nil => rfl
  | cons c rest ih =>
    rw [List.flatMap_cons, List.map_cons]
    rw [show transferLens ((eventsAt ctx c) ++ rest.flatMap (eventsAt ctx)) =
      transferLens (eventsAt ctx c) ++ transferLens (rest.flatMap (eventsAt ctx)) from
      List.filterMap_append _ _ _]
    rw [ih (fun k hk => hall k (List.mem_cons_of_mem c hk))]
    have : transferLens (eventsAt ctx c) =
        [plannedLen ctx.fileSize ctx.chunkSize ctx.totalChunks c] := by
      unfold eventsAt transferLens
      rw [hall c (List.mem_cons_self c rest)]
      rfl
    rw [this]
    rfl

theorem commitManifests_flatMap (ctx : Ctx) (l : List Int) :
    commitManifests (l.flatMap (eventsAt ctx)) = [] := by
  induction l with
  | nil => rfl
  | cons c rest ih =>
    rw [List.flatMap_cons]
    rw [show commitManifests ((eventsAt ctx c) ++ rest.flatMap (eventsAt ctx)) =
      commitManifests (eventsAt ctx c) ++ commitManifests (rest.flatMap (eventsAt ctx)) from
      List.filterMap_append _ _ _, ih]
    have : commitManifests (eventsAt ctx c) = [] := by
      unfold eventsAt commitManifests
      cases ctx.existing c <;> rfl
    rw [this]
    rfl

/-- Create-file event appended after the loop, when the loop finished. -/
def commitTail : Except (UploadError × LoopSt) LoopSt → List Event
  | .error _ => []
  | .ok st => [.commitCall ((sortByPartNo st.partsToCommit).map toFilePart)]

/-- Result of a whole `Put` call as a function of the loop outcome. -/
def resultOf (env : Env) (fileName : String) (fileSize : Int) (parentPath : String) :
    Except (UploadError × LoopSt) LoopSt → Except UploadError ObjectInfo
  | .error (e, _) => .error e
  | .ok _ => commitResult env fileName fileSize parentPath

/-- Decomposition of a `Put` call with a known size: the run is the
loop started from the registry-query trace, followed by the create-file
call when the loop finished. -/
theorem PutModel_decomp (cfg : Addition) (userId : Int) (dstPath fileName : String)
    (fileSize : Int) (env : Env) (hS : 0 ≤ fileSize) :
    PutModel cfg userId dstPath fileName fileSize env =
      { result := resultOf env fileName fileSize (if dstPath = "/" then "" else dstPath)
          (runChunks (ctxOf cfg env fileName fileSize)
            (chunkNos (ctxOf cfg env fileName fileSize).totalChunks)
            ⟨0, [], 0, [.registryQuery (uploadIDOf (if dstPath = "/" then "" else dstPath)
              fileName fileSize userId)]⟩)
        trace := traceOf (runChunks (ctxOf cfg env fileName fileSize)
            (chunkNos (ctxOf cfg env fileName fileSize).totalChunks)
            ⟨0, [], 0, [.registryQuery (uploadIDOf (if dstPath = "/" then "" else dstPath)
              fileName fileSize userId)]⟩) ++
          commitTail (runChunks (ctxOf cfg env fileName fileSize)
            (chunkNos (ctxOf cfg env fileName fileSize).totalChunks)
            ⟨0, [], 0, [.registryQuery (uploadIDOf (if dstPath = "/" then "" else dstPath)
              fileName fileSize userId)]⟩) } := by
  unfold PutModel
  rw [if_neg (by omega)]
  dsimp only
  cases hr : runChunks (ctxOf cfg env fileName fileSize)
      (chunkNos (ctxOf cfg env fileName fileSize).totalChunks)
      ⟨0, [], 0, [.registryQuery (uploadIDOf (if dstPath = "/" then "" else dstPath)
        fileName fileSize userId)]⟩ with
  | error p =>
    obtain ⟨e, st⟩ := p
    simp [traceOf, commitTail, resultOf]
  | ok st =>
    cases hcm : env.commit <;> simp [traceOf, commitTail, resultOf, commitResult, hcm]

/-- Trace of any `Put` call with a known size: it issues exactly one
registry query, with the session id derived from the four identity
inputs. -/
theorem PutModel_registryIds (cfg : Addition) (userId : Int) (dstPath fileName : String)
    (fileSize : Int) (env : Env) (hS : 0 ≤ fileSize) :
    registryIds (PutModel cfg userId dstPath fileName fileSize env).trace =
      [uploadIDOf (if dstPath = "/" then "" else dstPath) fileName fileSize userId] := by
  rw [PutModel_decomp cfg userId dstPath fileName fileSize env hS]
  obtain ⟨t, ht, hev, _⟩ := runChunks_trace_shape (ctxOf cfg env fileName fileSize)
    (chunkNos (ctxOf cfg env fileName fileSize).totalChunks)
    ⟨0, [], 0, [.registryQuery (uploadIDOf (if dstPath = "/" then "" else dstPath)
      fileName fileSize userId)]⟩
  have hregt : registryIds t = [] := by
    refine List.filterMap_eq_nil_iff.mpr ?_
    intro e he
    have h := hev e he
    cases e with
    | registryQuery i => exact absurd h id
    | skipChunk k r d => rfl
    | chunkTransfer k name n => rfl
    | progressReport v => rfl
    | commitCall ps => exact absurd h id
  have hct : registryIds (commitTail (runChunks (ctxOf cfg env fileName fileSize)
      (chunkNos (ctxOf cfg env fileName fileSize).totalChunks)
      ⟨0, [], 0, [.registryQuery (uploadIDOf (if dstPath = "/" then "" else dstPath)
        fileName fileSize userId)]⟩)) = [] := by
    cases runChunks (ctxOf cfg env fileName fileSize)
        (chunkNos (ctxOf cfg env fileName fileSize).totalChunks)
        ⟨0, [], 0, [.registryQuery (uploadIDOf (if dstPath = "/" then "" else dstPath)
          fileName fileSize userId)]⟩ with
    | error p => rfl
    | ok st => rfl
  show registryIds (_ ++ _) = _
  rw [show registryIds (traceOf (runChunks (ctxOf cfg env fileName fileSize)
      (chunkNos (ctxOf cfg env fileName fileSize).totalChunks)
      ⟨0, [], 0, [.registryQuery (uploadIDOf (if dstPath = "/" then "" else dstPath)
        fileName fileSize userId)]⟩) ++ commitTail _) =
    registryIds (traceOf _) ++ registryIds (commitTail _) from List.filterMap_append _ _ _,
    ht, hct]
  rw [show registryIds ([Event.registryQuery (uploadIDOf (if dstPath = "/" then "" else dstPath)
      fileName fileSize userId)] ++ t) = registryIds [Event.registryQuery
      (uploadIDOf (if dstPath = "/" then "" else dstPath) fileName fileSize userId)] ++
      registryIds t from List.filterMap_append _ _ _, hregt]
  rfl

/-- C7: the upload-session identity is a pure function of exactly the
four inputs (destination path, file name, file size, owner id): two
`Put` calls agreeing on them — with arbitrary and possibly different
configurations and environments — issue their registry query with the
same identifier, namely the fixed digest `uploadIDOf` of the normalized
destination path and the other three inputs. -/
theorem C7_uploadID_deterministic (dstPath fileName : String) (fileSize userId : Int)
    (cfg₁ cfg₂ : Addition) (env₁ env₂ : Env) (hS : 0 ≤ fileSize) :
    registryIds (PutModel cfg₁ userId dstPath fileName fileSize env₁).trace =
      [uploadIDOf (if dstPath = "/" then "" else dstPath) fileName fileSize userId] ∧
    registryIds (PutModel cfg₂ userId dstPath fileName fileSize env₂).trace =
      registryIds (PutModel cfg₁ userId dstPath fileName fileSize env₁).trace := by
  rw [PutModel_registryIds cfg₁ userId dstPath fileName fileSize env₁ hS,
    PutModel_registryIds cfg₂ userId dstPath fileName fileSize env₂ hS]
  exact ⟨rfl, rfl⟩

/-- C8: a negative (unknown) total size is rejected immediately: `Put`
returns the unsupported-size error with an empty trace, so no registry
lookup, no chunk transfer and no create-file call is made. -/
theorem C8_negative_size_rejected (cfg : Addition) (userId : Int)
    (dstPath fileName : String) (fileSize : Int) (env : Env) (hneg : fileSize < 0) :
    PutModel cfg userId dstPath fileName fileSize env =
      { result := .error .unsupportedSize, trace := [] } := by
  unfold PutModel
  rw [if_pos hneg]

theorem sum_plannedLen_upTo {S C tc : Int} (hC : 0 < C) (hS : 0 ≤ S)
    (htc : tc = totalChunksOf S C) :
    ∀ n : Nat, (n : Int) ≤ tc →
      ((upTo n).map (plannedLen S C tc)).sum = sumPlanned S C tc (n : Int) := by
  intro n
  induction n with
  | zero =>
    intro _
    rw [show ((0 : Nat) : Int) = (0 : Int) from rfl, sumPlanned_zero hC hS htc]
    rfl
  | succ j ih =>
    intro hn
    rw [upTo_succ, List.map_append, List.sum_append]
    have hj : ((j : Nat) : Int) ≤ tc := by push_cast at hn ⊢; omega
    have hjlt : ((j : Nat) : Int) < tc := by push_cast at hn; omega
    rw [ih hj]
    push_cast
    simp only [List.map_cons, List.map_nil, List.sum_cons, List.sum_nil, add_zero]
    exact sumPlanned_step hC hS htc (by positivity) hjlt

theorem chunkSizeOf_pos {cfg : Addition} (hM : 0 < cfg.chunkSizeMB) :
    0 < chunkSizeOf cfg := by
  unfold chunkSizeOf
  omega

/-- C3 (amended): for every known total size S ≥ 0 and configured chunk
size of M > 0 megabytes (so C = M*1024*1024 bytes), a fresh upload (no
existing parts, all transfers succeeding) plans `ceil(S/C)` chunks; the
transfer requests carry exactly the planned lengths, the planned lengths
sum to S, and every chunk other than the last has length C.  For the
example in the claim (S = 1,200,000,000 bytes, configured chunk size
500), C = 524,288,000 bytes and the three planned lengths are
[524288000, 524288000, 151424000]: the last chunk holds 151,424,000
bytes, not 200 MB. -/
theorem C3_chunk_plan (cfg : Addition) (userId : Int) (dstPath fileName : String)
    (fileSize : Int) (env : Env)
    (hM : 0 < cfg.chunkSizeMB) (hS : 0 ≤ fileSize)
    (hfresh : ∀ k, existingChunksOf env.registry k = none)
    (hok : ∀ k ∈ chunkNos (ctxOf cfg env fileName fileSize).totalChunks,
      transferOk (env.transfer k) = true) :
    (ctxOf cfg env fileName fileSize).totalChunks =
      ⌈(fileSize : ℚ) / (chunkSizeOf cfg : ℚ)⌉ ∧
    transferLens (PutModel cfg userId dstPath fileName fileSize env).trace =
      (chunkNos (ctxOf cfg env fileName fileSize).totalChunks).map
        (plannedLen fileSize (chunkSizeOf cfg)
          (ctxOf cfg env fileName fileSize).totalChunks) ∧
    ((chunkNos (ctxOf cfg env fileName fileSize).totalChunks).map
      (plannedLen fileSize (chunkSizeOf cfg)
        (ctxOf cfg env fileName fileSize).totalChunks)).sum = fileSize ∧
    (∀ k ∈ chunkNos (ctxOf cfg env fileName fileSize).totalChunks,
      k ≠ (ctxOf cfg env fileName fileSize).totalChunks →
      plannedLen fileSize (chunkSizeOf cfg)
        (ctxOf cfg env fileName fileSize).totalChunks k = chunkSizeOf cfg) := by
  have hC : 0 < chunkSizeOf cfg := chunkSizeOf_pos hM
  have htcd : (ctxOf cfg env fileName fileSize).totalChunks =
      totalChunksOf fileSize (chunkSizeOf cfg) := rfl
  have htc0 : 0 ≤ (ctxOf cfg env fileName fileSize).totalChunks :=
    htcd ▸ totalChunks_nonneg hC hS
  refine ⟨by rw [htcd]; exact totalChunksOf_eq_ceil hC hS, ?_, ?_, ?_⟩
  · rw [PutModel_clean cfg userId dstPath fileName fileSize env hM hS
      (by intro k _; unfold sizeOkAt; rw [hfresh k])
      (by intro k hk _; exact hok k hk)]
    show transferLens (_ ++ _ ++ _) = _
    rw [show transferLens ([Event.registryQuery (uploadIDOf
        (if dstPath = "/" then "" else dstPath) fileName fileSize userId)] ++
        (chunkNos (ctxOf cfg env fileName fileSize).totalChunks).flatMap
          (eventsAt (ctxOf cfg env fileName fileSize)) ++ _) =
      transferLens ([Event.registryQuery (uploadIDOf
        (if dstPath = "/" then "" else dstPath) fileName fileSize userId)] ++
        (chunkNos (ctxOf cfg env fileName fileSize).totalChunks).flatMap
          (eventsAt (ctxOf cfg env fileName fileSize))) ++ transferLens _
      from List.filterMap_append _ _ _]
    rw [show transferLens ([Event.registryQuery (uploadIDOf
        (if dstPath = "/" then "" else dstPath) fileName fileSize userId)] ++
        (chunkNos (ctxOf cfg env fileName fileSize).totalChunks).flatMap
          (eventsAt (ctxOf cfg env fileName fileSize))) =
      transferLens [Event.registryQuery (uploadIDOf
        (if dstPath = "/" then "" else dstPath) fileName fileSize userId)] ++
        transferLens ((chunkNos (ctxOf cfg env fileName fileSize).totalChunks).flatMap
          (eventsAt (ctxOf cfg env fileName fileSize)))
      from List.filterMap_append _ _ _]
    rw [transferLens_flatMap _ _ (fun k _ => hfresh k)]
    simp [transferLens]
    intro a _
    rfl
  · rw [show (chunkNos (ctxOf cfg env fileName fileSize).totalChunks) =
      upTo (ctxOf cfg env fileName fileSize).totalChunks.toNat from rfl]
    have := sum_plannedLen_upTo hC hS htcd
      (ctxOf cfg env fileName fileSize).totalChunks.toNat (by omega)
    rw [this]
    rw [show (((ctxOf cfg env fileName fileSize).totalChunks.toNat : Int)) =
      (ctxOf cfg env fileName fileSize).totalChunks by omega]
    exact sumPlanned_last
  · intro k _ hk
    unfold plannedLen
    rw [if_neg hk]

theorem progressRatio_mono {x y S : Int} (hS : 0 < S) (h : x ≤ y) :
    progressRatio x S ≤ progressRatio y S := by
  unfold progressRatio
  have hSQ : (0 : ℚ) < (S : ℚ) := by exact_mod_cast hS
  have hxy : (x : ℚ) ≤ (y : ℚ) := by exact_mod_cast h
  gcongr

theorem progressRatio_self {S : Int} (hS : 0 < S) : progressRatio S S = 100 := by
  unfold progressRatio
  rw [div_self (by exact_mod_cast hS.ne')]
  norm_num

theorem progressRatio_lt_100 {x S : Int} (hS : 0 < S) (h : x < S) :
    progressRatio x S < 100 := by
  rw [← progressRatio_self hS]
  unfold progressRatio
  have hSQ : (0 : ℚ) < (S : ℚ) := by exact_mod_cast hS
  have hxy : (x : ℚ) < (S : ℚ) := by exact_mod_cast h
  have h2 : (x : ℚ) / (S : ℚ) < (S : ℚ) / (S : ℚ) := by gcongr
  nlinarith [h2]

theorem pairwise_progress {S C tc : Int} (hC : 0 < C) (hpos : 0 < S)
    (htc : tc = totalChunksOf S C) (n : Nat) (hn : (n : Int) ≤ tc) :
    List.Pairwise (· ≤ ·) ((upTo n).map fun k => progressRatio (sumPlanned S C tc k) S) := by
  have hlt : List.Pairwise (· < ·) (upTo n) := by
    unfold upTo
    refine List.pairwise_map.mpr ?_
    exact (List.pairwise_lt_range n).imp (by intro a b h; omega)
  refine List.pairwise_map.mpr ?_
  refine hlt.imp_of_mem ?_
  intro a b ha hb hab
  have hA := mem_upTo_bounds ha
  have hB := mem_upTo_bounds hb
  exact progressRatio_mono hpos
    (sumPlanned_mono hC (le_of_lt hpos) htc (by omega) (le_of_lt hab) (by omega))

/-- C5: progress reporting of a completed upload with sane remote state
(registry parts carry the planned sizes, transfers succeed) and a
positive total size: the callback receives exactly one cumulative value
per chunk; the sequence is non-decreasing; every value before the last
is strictly below 100; the final value is exactly 100; and the
create-file call is the last trace event, so every progress report
happens before it. -/
theorem C5_progress_monotone (cfg : Addition) (userId : Int) (dstPath fileName : String)
    (fileSize : Int) (env : Env)
    (hM : 0 < cfg.chunkSizeMB) (hpos : 0 < fileSize)
    (hsizes : ∀ k ∈ chunkNos (ctxOf cfg env fileName fileSize).totalChunks,
      sizeOkAt (existingChunksOf env.registry) fileSize (chunkSizeOf cfg)
        (ctxOf cfg env fileName fileSize).totalChunks k = true)
    (hok : ∀ k ∈ chunkNos (ctxOf cfg env fileName fileSize).totalChunks,
      existingChunksOf env.registry k = none → transferOk (env.transfer k) = true) :
    progressValues (PutModel cfg userId dstPath fileName fileSize env).trace =
      (chunkNos (ctxOf cfg env fileName fileSize).totalChunks).map (fun k =>
        progressRatio (sumPlanned fileSize (chunkSizeOf cfg)
          (ctxOf cfg env fileName fileSize).totalChunks k) fileSize) ∧
    List.Pairwise (· ≤ ·)
      (progressValues (PutModel cfg userId dstPath fileName fileSize env).trace) ∧
    (∀ k ∈ chunkNos (ctxOf cfg env fileName fileSize).totalChunks,
      k ≠ (ctxOf cfg env fileName fileSize).totalChunks →
      progressRatio (sumPlanned fileSize (chunkSizeOf cfg)
        (ctxOf cfg env fileName fileSize).totalChunks k) fileSize < 100) ∧
    (progressValues (PutModel cfg userId dstPath fileName fileSize env).trace).getLast? =
      some 100 ∧
    (∃ pre ps, (PutModel cfg userId dstPath fileName fileSize env).trace =
      pre ++ [.commitCall ps]) := by
  have hS : 0 ≤ fileSize := le_of_lt hpos
  have hC : 0 < chunkSizeOf cfg := chunkSizeOf_pos hM
  have htcd : (ctxOf cfg env fileName fileSize).totalChunks =
      totalChunksOf fileSize (chunkSizeOf cfg) := rfl
  have htc0 : 0 ≤ (ctxOf cfg env fileName fileSize).totalChunks :=
    htcd ▸ totalChunks_nonneg hC hS
  have htc1 : 1 ≤ (ctxOf cfg env fileName fileSize).totalChunks :=
    htcd ▸ one_le_totalChunks hC hpos
  have h1 : progressValues (PutModel cfg userId dstPath fileName fileSize env).trace =
      (chunkNos (ctxOf cfg env fileName fileSize).totalChunks).map (fun k =>
        progressRatio (sumPlanned fileSize (chunkSizeOf cfg)
          (ctxOf cfg env fileName fileSize).totalChunks k) fileSize) := by
    rw [PutModel_clean cfg userId dstPath fileName fileSize env hM hS hsizes hok]
    show progressValues (_ ++ _ ++ _) = _
    rw [progressValues_append, progressValues_append, progressValues_flatMap]
    simp only [progressValues, List.filterMap_cons, List.filterMap_nil, List.append_nil,
      List.nil_append]
    rfl
  refine ⟨h1, ?_, ?_, ?_, ?_⟩
  · rw [h1, chunkNos_eq_upTo]
    exact pairwise_progress hC hpos htcd _ (by omega)
  · intro k hk hne
    rw [chunkNos_eq_upTo] at hk
    have hb := mem_upTo_bounds hk
    refine progressRatio_lt_100 hpos (sumPlanned_lt hC hS htcd (by omega) ?_)
    omega
  · rw [h1]
    obtain ⟨m, hm⟩ : ∃ m, (ctxOf cfg env fileName fileSize).totalChunks.toNat = m + 1 :=
      ⟨(ctxOf cfg env fileName fileSize).totalChunks.toNat - 1, by omega⟩
    rw [chunkNos_eq_upTo, hm, upTo_succ, List.map_append, List.map_cons, List.map_nil,
      List.getLast?_concat]
    have hmt : ((m : Int) + 1) = (ctxOf cfg env fileName fileSize).totalChunks := by omega
    rw [hmt, sumPlanned_last, progressRatio_self hpos]
  · exact ⟨[Event.registryQuery (uploadIDOf (if dstPath = "/" then "" else dstPath)
        fileName fileSize userId)] ++
      (chunkNos (ctxOf cfg env fileName fileSize).totalChunks).flatMap
        (eventsAt (ctxOf cfg env fileName fileSize)),
      (sortByPartNo ((chunkNos (ctxOf cfg env fileName fileSize).totalChunks).map
        (partAt (existingChunksOf env.registry) env))).map toFilePart,
      by rw [PutModel_clean cfg userId dstPath fileName fileSize env hM hS hsizes hok]⟩

theorem existingChunksOf_failed {reg : RegistryOutcome} (h : registryFailed reg = true) :
    existingChunksOf reg = fun _ => none := by
  cases reg with
  | transportError => rfl
  | response status parsed =>
    by_cases hst : status = 200
    · subst hst
      unfold registryFailed at h
      simp only [bne_self_eq_false, Bool.false_or] at h
      cases parsed with
      | none => rfl
      | some parts => simp [Option.isNone] at h
    · simp [existingChunksOf, hst]

/-- C6: a failed existing-parts lookup (transport error, non-200 status,
or unparseable body) never aborts the upload: the whole run — result
and trace — equals the run in which the registry answered 200 with an
empty part list, and (when every transfer succeeds) every planned chunk
is transferred. -/
theorem C6_registry_failure_degrades (cfg : Addition) (userId : Int)
    (dstPath fileName : String) (fileSize : Int) (env : Env)
    (hfail : registryFailed env.registry = true)
    (hM : 0 < cfg.chunkSizeMB) (hS : 0 ≤ fileSize)
    (hok : ∀ k ∈ chunkNos (ctxOf cfg env fileName fileSize).totalChunks,
      transferOk (env.transfer k) = true) :
    PutModel cfg userId dstPath fileName fileSize env =
      PutModel cfg userId dstPath fileName fileSize
        { env with registry := .response 200 (some []) } ∧
    transferredChunks (PutModel cfg userId dstPath fileName fileSize env).trace =
      chunkNos (ctxOf cfg env fileName fileSize).totalChunks := by
  have hC : 0 < chunkSizeOf cfg := chunkSizeOf_pos hM
  have hexist : existingChunksOf env.registry = fun _ => none := existingChunksOf_failed hfail
  have hexist2 : existingChunksOf
      (Env.registry { env with registry := .response 200 (some []) }) =
      (fun _ => none) := by
    funext k
    rfl
  have hnone : ∀ k, (ctxOf cfg env fileName fileSize).existing k = none := by
    intro k
    show existingChunksOf env.registry k = none
    rw [hexist]
  have hsz1 : ∀ k ∈ chunkNos (ctxOf cfg env fileName fileSize).totalChunks,
      sizeOkAt (existingChunksOf env.registry) fileSize (chunkSizeOf cfg)
        (ctxOf cfg env fileName fileSize).totalChunks k = true := by
    intro k _
    unfold sizeOkAt
    rw [show existingChunksOf env.registry k = none from hnone k]
  have hok1 : ∀ k ∈ chunkNos (ctxOf cfg env fileName fileSize).totalChunks,
      existingChunksOf env.registry k = none → transferOk (env.transfer k) = true :=
    fun k hk _ => hok k hk
  have hclean := PutModel_clean cfg userId dstPath fileName fileSize env hM hS hsz1 hok1
  refine ⟨?_, ?_⟩
  · have htc2 : (ctxOf cfg { env with registry := .response 200 (some []) }
        fileName fileSize).totalChunks = (ctxOf cfg env fileName fileSize).totalChunks := rfl
    have hsz2 : ∀ k ∈ chunkNos (ctxOf cfg { env with registry := .response 200 (some []) }
          fileName fileSize).totalChunks,
        sizeOkAt (existingChunksOf (Env.registry { env with
          registry := .response 200 (some []) })) fileSize (chunkSizeOf cfg)
          (ctxOf cfg { env with registry := .response 200 (some []) }
            fileName fileSize).totalChunks k = true := by
      intro k _
      unfold sizeOkAt
      rw [show existingChunksOf (Env.registry { env with
        registry := .response 200 (some []) }) k = none from congrFun hexist2 k]
    have hok2 : ∀ k ∈ chunkNos (ctxOf cfg { env with registry := .response 200 (some []) }
          fileName fileSize).totalChunks,
        existingChunksOf (Env.registry { env with registry := .response 200 (some []) }) k =
          none → transferOk (Env.transfer { env with
            registry := .response 200 (some []) } k) = true := by
      intro k hk _
      exact hok k (by rw [← htc2]; exact hk)
    rw [hclean, PutModel_clean cfg userId dstPath fileName fileSize
      { env with registry := .response 200 (some []) } hM hS hsz2 hok2]
    have hev : eventsAt (ctxOf cfg env fileName fileSize) =
        eventsAt (ctxOf cfg { env with registry := .response 200 (some []) }
          fileName fileSize) := by
      funext k
      unfold eventsAt
      rw [show (ctxOf cfg env fileName fileSize).existing k = none from hnone k,
        show (ctxOf cfg { env with registry := .response 200 (some []) }
          fileName fileSize).existing k = none from congrFun hexist2 k]
      try rfl
    have hpart : partAt (existingChunksOf env.registry) env =
        partAt (existingChunksOf (Env.registry { env with
          registry := .response 200 (some []) }))
          { env with registry := .response 200 (some []) } := by
      funext k
      unfold partAt
      rw [show existingChunksOf env.registry k = none from hnone k,
        show existingChunksOf (Env.registry { env with
          registry := .response 200 (some []) }) k = none from congrFun hexist2 k]
      try rfl
    rw [show commitResult { env with registry := .response 200 (some []) } fileName fileSize
      (if dstPath = "/" then "" else dstPath) = commitResult env fileName fileSize
      (if dstPath = "/" then "" else dstPath) from rfl]
    rw [← hev, ← hpart]
    rfl
  · rw [hclean]
    show transferredChunks (_ ++ _ ++ _) = _
    rw [transferredChunks_append, transferredChunks_append, transferredChunks_flatMap]
    have h1 : transferredChunks [Event.registryQuery (uploadIDOf
        (if dstPath = "/" then "" else dstPath) fileName fileSize userId)] = [] := rfl
    have h2 : transferredChunks [Event.commitCall ((sortByPartNo
        ((chunkNos (ctxOf cfg env fileName fileSize).totalChunks).map
          (partAt (existingChunksOf env.registry) env))).map toFilePart)] = [] := rfl
    rw [h1, h2, List.nil_append, List.append_nil]
    refine List.filter_eq_self.mpr ?_
    intro k _
    rw [hnone k]
    rfl

theorem buildExisting_aux {k : Int} {ex : PartFile} :
    ∀ (parts : List PartFile) (acc : Option PartFile),
      (∀ p, acc = some p → p.partNo = k) →
      parts.foldl (fun acc part => if part.partNo = k then some part else acc) acc =
        some ex → ex.partNo = k := by
  intro parts
  induction parts with
  | nil =>
    intro acc hacc h2
    exact hacc ex h2
  | cons q rest ih =>
    intro acc hacc h2
    simp only [List.foldl_cons] at h2
    refine ih (if q.partNo = k then some q else acc) ?_ h2
    intro p hp
    by_cases hq : q.partNo = k
    · rw [if_pos hq] at hp
      cases hp
      exact hq
    · rw [if_neg hq] at hp
      exact hacc p hp

theorem buildExisting_partNo {parts : List PartFile} {k : Int} {ex : PartFile}
    (h : buildExisting parts k = some ex) : ex.partNo = k :=
  buildExisting_aux parts none (by intro p hp; cases hp) h

theorem existingChunksOf_partNo {reg : RegistryOutcome} {k : Int} {ex : PartFile}
    (h : existingChunksOf reg k = some ex) : ex.partNo = k := by
  cases reg with
  | transportError => cases h
  | response status parsed =>
    by_cases hst : status = 200
    · subst hst
      cases parsed with
      | none => simp [existingChunksOf] at h
      | some parts =>
        simp only [existingChunksOf, if_pos] at h
        exact buildExisting_partNo h
    · simp [existingChunksOf, hst] at h

theorem insertPart_le {p : PartFile} {l : List PartFile}
    (h : ∀ q ∈ l, p.partNo ≤ q.partNo) : insertPart p l = p :: l := by
  cases l with
  | nil => rfl
  | cons q rest =>
    unfold insertPart
    rw [if_pos (h q (List.mem_cons_self q rest))]

theorem sortByPartNo_sorted {l : List PartFile}
    (h : List.Pairwise (fun a b => a.partNo ≤ b.partNo) l) : sortByPartNo l = l := by
  induction l with
  | nil => rfl
  | cons p rest ih =>
    have hrest : sortByPartNo rest = rest := ih (List.Pairwise.of_cons h)
    show insertPart p (sortByPartNo rest) = p :: rest
    rw [hrest]
    exact insertPart_le (List.pairwise_cons.mp h).1

theorem partAt_partNo (env : Env) {tc : Int} {k : Int}
    (hk : k ∈ chunkNos tc)
    (hok : ∀ k ∈ chunkNos tc, existingChunksOf env.registry k = none →
      transferOk (env.transfer k) = true)
    (hecho : ∀ k ∈ chunkNos tc, existingChunksOf env.registry k = none →
      transferEcho (env.transfer k) k = true) :
    (partAt (existingChunksOf env.registry) env k).partNo = k := by
  unfold partAt
  cases hex : existingChunksOf env.registry k with
  | some ex => exact existingChunksOf_partNo hex
  | none =>
    have h1 := hok k hk hex
    have h2 := hecho k hk hex
    cases htr : env.transfer k with
    | transportError msg => rw [htr] at h1; simp [transferOk] at h1
    | badStatus body => rw [htr] at h1; simp [transferOk] at h1
    | parseError msg => rw [htr] at h1; simp [transferOk] at h1
    | parsed p =>
      rw [htr] at h2
      simpa [transferEcho] using h2

theorem partNos_of_partAt (env : Env) {tc : Int}
    (hok : ∀ k ∈ chunkNos tc, existingChunksOf env.registry k = none →
      transferOk (env.transfer k) = true)
    (hecho : ∀ k ∈ chunkNos tc, existingChunksOf env.registry k = none →
      transferEcho (env.transfer k) k = true) :
    ((chunkNos tc).map (partAt (existingChunksOf env.registry) env)).map
      (fun p => p.partNo) = chunkNos tc := by
  rw [List.map_map]
  have : ∀ k ∈ chunkNos tc,
      ((fun p => p.partNo) ∘ partAt (existingChunksOf env.registry) env) k = k := by
    intro k hk
    exact partAt_partNo env hk hok hecho
  rw [List.map_congr_left this, List.map_id']

theorem pairwise_lt_chunkNos (tc : Int) : List.Pairwise (· < ·) (chunkNos tc) := by
  unfold chunkNos
  refine List.pairwise_map.mpr ?_
  exact (List.pairwise_lt_range tc.toNat).imp (by intro a b h; omega)

/-- Manifest of any completed `Put` call whose transfer responses echo
the requested part number: exactly one create-file call is made, its
manifest is the (id, salt) projection of one part per planned chunk, and
the underlying part numbers are exactly 1..totalChunks in order. -/
theorem PutModel_manifest (cfg : Addition) (userId : Int) (dstPath fileName : String)
    (fileSize : Int) (env : Env) (hS : 0 ≤ fileSize)
    (hok : ∀ k ∈ chunkNos (ctxOf cfg env fileName fileSize).totalChunks,
      existingChunksOf env.registry k = none → transferOk (env.transfer k) = true)
    (hecho : ∀ k ∈ chunkNos (ctxOf cfg env fileName fileSize).totalChunks,
      existingChunksOf env.registry k = none → transferEcho (env.transfer k) k = true) :
    commitManifests (PutModel cfg userId dstPath fileName fileSize env).trace =
      [((chunkNos (ctxOf cfg env fileName fileSize).totalChunks).map
        (partAt (existingChunksOf env.registry) env)).map toFilePart] ∧
    ((chunkNos (ctxOf cfg env fileName fileSize).totalChunks).map
      (partAt (existingChunksOf env.registry) env)).map (fun p => p.partNo) =
      chunkNos (ctxOf cfg env fileName fileSize).totalChunks := by
  have hpn := partNos_of_partAt env hok hecho
  have hpair : List.Pairwise (fun a b => a.partNo ≤ b.partNo)
      ((chunkNos (ctxOf cfg env fileName fileSize).totalChunks).map
        (partAt (existingChunksOf env.registry) env)) := by
    have h1 : List.Pairwise (· < ·)
        (((chunkNos (ctxOf cfg env fileName fileSize).totalChunks).map
          (partAt (existingChunksOf env.registry) env)).map (fun p => p.partNo)) := by
      rw [hpn]
      exact pairwise_lt_chunkNos _
    have h2 := List.pairwise_map.mp h1
    exact h2.imp (by intro a b h; omega)
  have hsorted : sortByPartNo ((chunkNos (ctxOf cfg env fileName fileSize).totalChunks).map
      (partAt (existingChunksOf env.registry) env)) =
      (chunkNos (ctxOf cfg env fileName fileSize).totalChunks).map
        (partAt (existingChunksOf env.registry) env) := sortByPartNo_sorted hpair
  refine ⟨?_, hpn⟩
  rw [PutModel_decomp cfg userId dstPath fileName fileSize env hS]
  obtain ⟨st', t, h1, h2, h3, h4⟩ := runChunks_ok_of_transferOk
    (ctxOf cfg env fileName fileSize)
    (chunkNos (ctxOf cfg env fileName fileSize).totalChunks)
    ⟨0, [], 0, [.registryQuery (uploadIDOf (if dstPath = "/" then "" else dstPath)
      fileName fileSize userId)]⟩ hok
  obtain ⟨t2, ht2, hev2, _⟩ := runChunks_trace_shape (ctxOf cfg env fileName fileSize)
    (chunkNos (ctxOf cfg env fileName fileSize).totalChunks)
    ⟨0, [], 0, [.registryQuery (uploadIDOf (if dstPath = "/" then "" else dstPath)
      fileName fileSize userId)]⟩
  rw [h1] at ht2 ⊢
  simp only [traceOf] at ht2
  show commitManifests (traceOf (Except.ok st') ++ commitTail (Except.ok st')) = _
  simp only [traceOf, commitTail]
  rw [show commitManifests (st'.trace ++ [Event.commitCall
      ((sortByPartNo st'.partsToCommit).map toFilePart)]) =
    commitManifests st'.trace ++ commitManifests [Event.commitCall
      ((sortByPartNo st'.partsToCommit).map toFilePart)] from List.filterMap_append _ _ _]
  have hnc : commitManifests st'.trace = [] := by
    rw [ht2]
    rw [show commitManifests ([Event.registryQuery (uploadIDOf
        (if dstPath = "/" then "" else dstPath) fileName fileSize userId)] ++ t2) =
      commitManifests [Event.registryQuery (uploadIDOf
        (if dstPath = "/" then "" else dstPath) fileName fileSize userId)] ++
        commitManifests t2 from List.filterMap_append _ _ _]
    have : commitManifests t2 = [] := by
      refine List.filterMap_eq_nil_iff.mpr ?_
      intro e he
      have h := hev2 e he
      cases e with
      | registryQuery i => exact absurd h id
      | skipChunk k r d => rfl
      | chunkTransfer k name n => rfl
      | progressReport v => rfl
      | commitCall ps => exact absurd h id
    rw [this]
    rfl
  rw [hnc, List.nil_append]
  rw [h2]
  dsimp only
  rw [List.nil_append]
  rw [show (partAt (ctxOf cfg env fileName fileSize).existing
      (ctxOf cfg env fileName fileSize).env) =
    partAt (existingChunksOf env.registry) env from rfl]
  rw [hsorted]
  rfl

/-- C4: for every upload that reaches the create-file call — all needed
transfers succeeded — with the remote service echoing the requested part
number in each transfer response, the committed manifest has exactly one
entry per planned chunk and the underlying parts are ordered strictly by
ascending chunk sequence number: their part numbers are exactly
`[1, ..., totalChunks]`, with no duplicate and no gap.  No assumption is
made on which chunks were skipped or on the recorded part sizes. -/
theorem C4_manifest_ordered (cfg : Addition) (userId : Int) (dstPath fileName : String)
    (fileSize : Int) (env : Env) (hS : 0 ≤ fileSize)
    (hok : ∀ k ∈ chunkNos (ctxOf cfg env fileName fileSize).totalChunks,
      existingChunksOf env.registry k = none → transferOk (env.transfer k) = true)
    (hecho : ∀ k ∈ chunkNos (ctxOf cfg env fileName fileSize).totalChunks,
      existingChunksOf env.registry k = none → transferEcho (env.transfer k) k = true) :
    commitManifests (PutModel cfg userId dstPath fileName fileSize env).trace =
      [((chunkNos (ctxOf cfg env fileName fileSize).totalChunks).map
        (partAt (existingChunksOf env.registry) env)).map toFilePart] ∧
    ((chunkNos (ctxOf cfg env fileName fileSize).totalChunks).map
      (partAt (existingChunksOf env.registry) env)).map (fun p => p.partNo) =
      chunkNos (ctxOf cfg env fileName fileSize).totalChunks :=
  PutModel_manifest cfg userId dstPath fileName fileSize env hS hok hecho

theorem discardAt_eq {S C tc k : Int} (hC : 0 < C) (hS : 0 ≤ S)
    (htc : tc = totalChunksOf S C) (hk1 : 1 ≤ k) (hk2 : k ≤ tc) :
    discardAt S S C tc k = plannedLen S C tc k := by
  unfold discardAt
  have h1 : 0 ≤ sumPlanned S C tc (k - 1) := sumPlanned_nonneg hC hS (by omega)
  have h2 := sumPlanned_step (k := k - 1) hC hS htc (by omega) (by omega)
  rw [show k - 1 + 1 = k from by ring] at h2
  have h3 : sumPlanned S C tc k ≤ S := sumPlanned_le hC hS htc (by omega) hk2
  have h4 : 0 < plannedLen S C tc k := plannedLen_pos hC hS htc
  omega

/-- C1: resume behavior of `Put` with sane remote state (recorded part
sizes are the planned lengths, transfers succeed and echo the sequence
number) and a full-length stream:
(a) the transfer requests are issued exactly for the planned chunks the
registry does not hold, in ascending order;
(b) every skip discards exactly the recorded part size from the source
stream (the requested count is the recorded size, and the stream
supplies all of it);
(c) exactly one create-file call is made, whose manifest holds one entry
per planned chunk — the registry part for a skipped chunk, the transfer
response otherwise — ordered by ascending sequence number (part numbers
exactly `[1, ..., totalChunks]`). -/
theorem C1_resume_skips_and_transfers (cfg : Addition) (userId : Int)
    (dstPath fileName : String) (fileSize : Int) (env : Env)
    (hM : 0 < cfg.chunkSizeMB) (hS : 0 ≤ fileSize)
    (havail : env.streamAvail = fileSize)
    (hsizes : ∀ k ∈ chunkNos (ctxOf cfg env fileName fileSize).totalChunks,
      sizeOkAt (existingChunksOf env.registry) fileSize (chunkSizeOf cfg)
        (ctxOf cfg env fileName fileSize).totalChunks k = true)
    (hok : ∀ k ∈ chunkNos (ctxOf cfg env fileName fileSize).totalChunks,
      existingChunksOf env.registry k = none → transferOk (env.transfer k) = true)
    (hecho : ∀ k ∈ chunkNos (ctxOf cfg env fileName fileSize).totalChunks,
      existingChunksOf env.registry k = none → transferEcho (env.transfer k) k = true) :
    transferredChunks (PutModel cfg userId dstPath fileName fileSize env).trace =
      (chunkNos (ctxOf cfg env fileName fileSize).totalChunks).filter
        (fun k => (existingChunksOf env.registry k).isNone) ∧
    (∀ k r d, Event.skipChunk k r d ∈ (PutModel cfg userId dstPath fileName fileSize env).trace →
      ∃ ex, existingChunksOf env.registry k = some ex ∧ r = ex.size ∧ d = r) ∧
    commitManifests (PutModel cfg userId dstPath fileName fileSize env).trace =
      [((chunkNos (ctxOf cfg env fileName fileSize).totalChunks).map
        (partAt (existingChunksOf env.registry) env)).map toFilePart] ∧
    ((chunkNos (ctxOf cfg env fileName fileSize).totalChunks).map
      (partAt (existingChunksOf env.registry) env)).map (fun p => p.partNo) =
      chunkNos (ctxOf cfg env fileName fileSize).totalChunks := by
  have hC : 0 < chunkSizeOf cfg := chunkSizeOf_pos hM
  have htcd : (ctxOf cfg env fileName fileSize).totalChunks =
      totalChunksOf fileSize (chunkSizeOf cfg) := rfl
  have hclean := PutModel_clean cfg userId dstPath fileName fileSize env hM hS hsizes hok
  obtain ⟨hman1, hman2⟩ :=
    PutModel_manifest cfg userId dstPath fileName fileSize env hS hok hecho
  refine ⟨?_, ?_, hman1, hman2⟩
  · rw [hclean]
    show transferredChunks (_ ++ _ ++ _) = _
    rw [transferredChunks_append, transferredChunks_append, transferredChunks_flatMap]
    have h1 : transferredChunks [Event.registryQuery (uploadIDOf
        (if dstPath = "/" then "" else dstPath) fileName fileSize userId)] = [] := rfl
    have h2 : transferredChunks [Event.commitCall ((sortByPartNo
        ((chunkNos (ctxOf cfg env fileName fileSize).totalChunks).map
          (partAt (existingChunksOf env.registry) env))).map toFilePart)] = [] := rfl
    rw [h1, h2, List.nil_append, List.append_nil]
    rfl
  · intro k r d hmem
    rw [hclean] at hmem
    show ∃ ex, (ctxOf cfg env fileName fileSize).existing k = some ex ∧ r = ex.size ∧ d = r
    rcases List.mem_append.mp hmem with hmem | hmem
    · rcases List.mem_append.mp hmem with hmem | hmem
      · rw [List.mem_singleton] at hmem
        cases hmem
      · obtain ⟨c, hc, hec⟩ := List.mem_flatMap.mp hmem
        have hbound := mem_upTo_bounds (by rw [← chunkNos_eq_upTo]; exact hc)
        unfold eventsAt at hec
        cases hex : (ctxOf cfg env fileName fileSize).existing c with
        | some ex =>
          rw [hex] at hec
          rcases List.mem_cons.mp hec with hec | hec
          · injection hec with hk hr hd
            subst hk
            have htc0 : 0 ≤ (ctxOf cfg env fileName fileSize).totalChunks :=
              htcd ▸ totalChunks_nonneg hC hS
            have hsz := hsizes k hc
            simp only [sizeOkAt] at hsz
            rw [show existingChunksOf env.registry k =
              (ctxOf cfg env fileName fileSize).existing k from rfl, hex] at hsz
            have hszeq : ex.size = plannedLen fileSize (chunkSizeOf cfg)
                (ctxOf cfg env fileName fileSize).totalChunks k := eq_of_beq hsz
            refine ⟨ex, hex, hr, ?_⟩
            rw [hd, hr]
            show discardAt env.streamAvail fileSize (chunkSizeOf cfg)
              (ctxOf cfg env fileName fileSize).totalChunks k = ex.size
            rw [havail, discardAt_eq hC hS htcd (by omega) (by omega), hszeq]
          · rw [List.mem_singleton] at hec
            cases hec
        | none =>
          rw [hex] at hec
          rcases List.mem_cons.mp hec with hec | hec
          · cases hec
          · rw [List.mem_singleton] at hec
            cases hec
    · rw [List.mem_singleton] at hmem
      cases hmem

theorem upTo_split {j n : Nat} (h : j ≤ n) : upTo n = upTo j ++ segFrom j (n - j) := by
  obtain ⟨m, rfl⟩ : ∃ m, n = j + m := ⟨n - j, by omega⟩
  unfold upTo segFrom
  rw [List.range_add, List.map_append, List.map_map]
  rw [show j + m - j = m by omega]
  congr 1

/-- A chunk the registry does not hold whose transfer fails makes the
loop body abort with the matching error, after consuming up to the
planned length from the stream and recording the transfer attempt. -/
theorem stepChunk_fail (ctx : Ctx) (c : Int) (st : LoopSt)
    (hex : ctx.existing c = none) (hfail : transferOk (ctx.env.transfer c) = false) :
    stepChunk ctx c st = .error (errorOfTransfer (ctx.env.transfer c),
      { st with
        consumed := st.consumed + max 0 (min (if c = ctx.totalChunks then
          ctx.fileSize - st.uploadedSize else ctx.chunkSize)
          (ctx.env.streamAvail - st.consumed))
        trace := st.trace ++ [.chunkTransfer c
          (chunkNameOf ctx.cfg ctx.env ctx.fileName ctx.totalChunks c)
          (if c = ctx.totalChunks then ctx.fileSize - st.uploadedSize else ctx.chunkSize)] }) := by
  cases htr : ctx.env.transfer c with
  | transportError msg => simp [stepChunk, hex, htr, errorOfTransfer]
  | badStatus body => simp [stepChunk, hex, htr, errorOfTransfer]
  | parseError msg => simp [stepChunk, hex, htr, errorOfTransfer]
  | parsed p =>
    rw [htr] at hfail
    have hid : p.partId = 0 := by
      simpa [transferOk] using hfail
    simp [stepChunk, hex, htr, errorOfTransfer, hid]

/-- C2 (amended): a failing chunk transfer aborts the whole upload at
that chunk.  If chunk `f` is not in the registry, its transfer fails
(transport error, non-200 status, unparseable body, or zero part id)
and every needed transfer before `f` succeeds, then `Put` returns the
error corresponding to the failing outcome — carrying the transport
message or response body but not the chunk sequence number — no chunk
after `f` is transferred, and no create-file call is made. -/
theorem C2_abort_on_transfer_failure (cfg : Addition) (userId : Int)
    (dstPath fileName : String) (fileSize : Int) (env : Env)
    (hS : 0 ≤ fileSize) (f : Int)
    (hf : f ∈ chunkNos (ctxOf cfg env fileName fileSize).totalChunks)
    (hfex : existingChunksOf env.registry f = none)
    (hffail : transferOk (env.transfer f) = false)
    (hpre : ∀ k ∈ chunkNos (ctxOf cfg env fileName fileSize).totalChunks, k < f →
      existingChunksOf env.registry k = none → transferOk (env.transfer k) = true) :
    (PutModel cfg userId dstPath fileName fileSize env).result =
      .error (errorOfTransfer (env.transfer f)) ∧
    (∀ k name n, Event.chunkTransfer k name n ∈
      (PutModel cfg userId dstPath fileName fileSize env).trace → k ≤ f) ∧
    (∀ ps, Event.commitCall ps ∉
      (PutModel cfg userId dstPath fileName fileSize env).trace) := by
  rw [PutModel_decomp cfg userId dstPath fileName fileSize env hS]
  obtain ⟨i, hi, hfi⟩ := List.mem_map.mp
    (by rw [chunkNos_eq_upTo] at hf; exact hf)
  have hin : i < (ctxOf cfg env fileName fileSize).totalChunks.toNat := List.mem_range.mp hi
  have hfi2 : ((i : Nat) : Int) + 1 = f := hfi
  have hsplit : chunkNos (ctxOf cfg env fileName fileSize).totalChunks =
      upTo i ++ (f :: segFrom (i + 1)
        ((ctxOf cfg env fileName fileSize).totalChunks.toNat - i - 1)) := by
    rw [chunkNos_eq_upTo, upTo_split (show i ≤ (ctxOf cfg env fileName fileSize).totalChunks.toNat
      by omega)]
    congr 1
    conv_lhs => rw [show (ctxOf cfg env fileName fileSize).totalChunks.toNat - i =
      ((ctxOf cfg env fileName fileSize).totalChunks.toNat - i - 1) + 1 by omega]
    rw [segFrom_succ, hfi2]
  have hmemOf : ∀ k ∈ upTo i, k ∈ chunkNos (ctxOf cfg env fileName fileSize).totalChunks := by
    intro k hk
    have hb := mem_upTo_bounds hk
    rw [chunkNos_eq_upTo]
    exact mem_upTo_iff.mpr ⟨hb.1, by omega⟩
  have hklt : ∀ k ∈ upTo i, k < f := by
    intro k hk
    have hb := mem_upTo_bounds hk
    omega
  obtain ⟨st', t, h1, h2, h3, h4⟩ := runChunks_ok_of_transferOk
    (ctxOf cfg env fileName fileSize) (upTo i)
    ⟨0, [], 0, [.registryQuery (uploadIDOf (if dstPath = "/" then "" else dstPath)
      fileName fileSize userId)]⟩
    (fun k hk hkex => hpre k (hmemOf k hk) (hklt k hk) hkex)
  obtain ⟨t2, ht2, hev2, _⟩ := runChunks_trace_shape
    (ctxOf cfg env fileName fileSize) (upTo i)
    ⟨0, [], 0, [.registryQuery (uploadIDOf (if dstPath = "/" then "" else dstPath)
      fileName fileSize userId)]⟩
  rw [h1] at ht2
  simp only [traceOf] at ht2
  have hstep := stepChunk_fail (ctxOf cfg env fileName fileSize) f st' hfex hffail
  have hrun : runChunks (ctxOf cfg env fileName fileSize)
      (chunkNos (ctxOf cfg env fileName fileSize).totalChunks)
      ⟨0, [], 0, [.registryQuery (uploadIDOf (if dstPath = "/" then "" else dstPath)
        fileName fileSize userId)]⟩ =
      .error (errorOfTransfer ((ctxOf cfg env fileName fileSize).env.transfer f),
        { st' with
          consumed := st'.consumed + max 0 (min
            (if f = (ctxOf cfg env fileName fileSize).totalChunks
              then (ctxOf cfg env fileName fileSize).fileSize - st'.uploadedSize
              else (ctxOf cfg env fileName fileSize).chunkSize)
            ((ctxOf cfg env fileName fileSize).env.streamAvail - st'.consumed))
          trace := st'.trace ++ [.chunkTransfer f
            (chunkNameOf (ctxOf cfg env fileName fileSize).cfg
              (ctxOf cfg env fileName fileSize).env
              (ctxOf cfg env fileName fileSize).fileName
              (ctxOf cfg env fileName fileSize).totalChunks f)
            (if f = (ctxOf cfg env fileName fileSize).totalChunks
              then (ctxOf cfg env fileName fileSize).fileSize - st'.uploadedSize
              else (ctxOf cfg env fileName fileSize).chunkSize)] }) := by
    rw [hsplit, runChunks_append, h1]
    show runChunks (ctxOf cfg env fileName fileSize) (f :: segFrom (i + 1)
      ((ctxOf cfg env fileName fileSize).totalChunks.toNat - i - 1)) st' = _
    simp only [runChunks, hstep]
  rw [hrun]
  refine ⟨rfl, ?_, ?_⟩
  · intro k name n hmem
    simp only [traceOf, commitTail, List.append_nil] at hmem
    rw [ht2] at hmem
    rcases List.mem_append.mp hmem with hmem | hmem
    · rcases List.mem_append.mp hmem with hmem | hmem
      · rw [List.mem_singleton] at hmem
        cases hmem
      · have h := hev2 _ hmem
        obtain ⟨hk, _, _⟩ := h
        have := hklt k hk
        omega
    · rw [List.mem_singleton] at hmem
      injection hmem with hk _ _
      omega
  · intro ps hmem
    simp only [traceOf, commitTail, List.append_nil] at hmem
    rw [ht2] at hmem
    rcases List.mem_append.mp hmem with hmem | hmem
    · rcases List.mem_append.mp hmem with hmem | hmem
      · rw [List.mem_singleton] at hmem
        cases hmem
      · exact hev2 _ hmem
    · rw [List.mem_singleton] at hmem
      cases hmem

theorem transferredChunks_eq_map_pairs (t : List Event) :
    transferredChunks t = (transferPairs t).map (fun p => p.1) := by
  induction t with
  | nil => rfl
  | cons e rest ih =>
    cases e <;> simp [transferredChunks, transferPairs, List.filterMap_cons] <;>
      simpa [transferredChunks, transferPairs] using ih

theorem mem_transferPairs {tr : List Event} {p : Int × String}
    (h : p ∈ transferPairs tr) : ∃ n, Event.chunkTransfer p.1 p.2 n ∈ tr := by
  unfold transferPairs at h
  obtain ⟨e, he, hfe⟩ := List.mem_filterMap.mp h
  cases e with
  | registryQuery i => cases hfe
  | skipChunk k r d => cases hfe
  | progressReport v => cases hfe
  | commitCall ps => cases hfe
  | chunkTransfer k name n =>
    refine ⟨n, ?_⟩
    have hp : p = (k, name) := by
      cases hfe
      rfl
    rw [hp]
    exact he

/-- Every transfer request of a `Put` run is for a planned chunk the
registry does not hold, and carries the name derived by the naming
policy. -/
theorem PutModel_transfer_events (cfg : Addition) (userId : Int)
    (dstPath fileName : String) (fileSize : Int) (env : Env) (hS : 0 ≤ fileSize) :
    ∀ k name n, Event.chunkTransfer k name n ∈
      (PutModel cfg userId dstPath fileName fileSize env).trace →
      k ∈ chunkNos (ctxOf cfg env fileName fileSize).totalChunks ∧
      existingChunksOf env.registry k = none ∧
      name = chunkNameOf cfg env fileName (ctxOf cfg env fileName fileSize).totalChunks k := by
  rw [PutModel_decomp cfg userId dstPath fileName fileSize env hS]
  intro k name n hmem
  obtain ⟨t, ht, hev, _⟩ := runChunks_trace_shape (ctxOf cfg env fileName fileSize)
    (chunkNos (ctxOf cfg env fileName fileSize).totalChunks)
    ⟨0, [], 0, [.registryQuery (uploadIDOf (if dstPath = "/" then "" else dstPath)
      fileName fileSize userId)]⟩
  show _ ∧ (ctxOf cfg env fileName fileSize).existing k = none ∧ _
  rcases List.mem_append.mp hmem with hmem | hmem
  · rw [ht] at hmem
    rcases List.mem_append.mp hmem with hmem | hmem
    · rw [List.mem_singleton] at hmem
      cases hmem
    · exact hev _ hmem
  · cases hR : runChunks (ctxOf cfg env fileName fileSize)
        (chunkNos (ctxOf cfg env fileName fileSize).totalChunks)
        ⟨0, [], 0, [.registryQuery (uploadIDOf (if dstPath = "/" then "" else dstPath)
          fileName fileSize userId)]⟩ with
    | error p =>
      rw [hR] at hmem
      cases hmem
    | ok st =>
      rw [hR] at hmem
      rw [show commitTail (Except.ok st) = [Event.commitCall
        ((sortByPartNo st.partsToCommit).map toFilePart)] from rfl,
        List.mem_singleton] at hmem
      cases hmem

/-- Sublist fact: the chunk numbers of the transfer requests of a whole
`Put` run form a sublist of the planned chunk numbers, hence are
pairwise distinct and ascending. -/
theorem PutModel_transferredChunks_sublist (cfg : Addition) (userId : Int)
    (dstPath fileName : String) (fileSize : Int) (env : Env) (hS : 0 ≤ fileSize) :
    List.Sublist (transferredChunks (PutModel cfg userId dstPath fileName fileSize env).trace)
      (chunkNos (ctxOf cfg env fileName fileSize).totalChunks) := by
  rw [PutModel_decomp cfg userId dstPath fileName fileSize env hS]
  obtain ⟨t, ht, hev, hsub⟩ := runChunks_trace_shape (ctxOf cfg env fileName fileSize)
    (chunkNos (ctxOf cfg env fileName fileSize).totalChunks)
    ⟨0, [], 0, [.registryQuery (uploadIDOf (if dstPath = "/" then "" else dstPath)
      fileName fileSize userId)]⟩
  show List.Sublist (transferredChunks (_ ++ _)) _
  rw [transferredChunks_append, ht, transferredChunks_append]
  have h1 : transferredChunks [Event.registryQuery (uploadIDOf
      (if dstPath = "/" then "" else dstPath) fileName fileSize userId)] = [] := rfl
  have h2 : transferredChunks (commitTail (runChunks (ctxOf cfg env fileName fileSize)
      (chunkNos (ctxOf cfg env fileName fileSize).totalChunks)
      ⟨0, [], 0, [.registryQuery (uploadIDOf (if dstPath = "/" then "" else dstPath)
        fileName fileSize userId)]⟩)) = [] := by
    cases runChunks (ctxOf cfg env fileName fileSize)
        (chunkNos (ctxOf cfg env fileName fileSize).totalChunks)
        ⟨0, [], 0, [.registryQuery (uploadIDOf (if dstPath = "/" then "" else dstPath)
          fileName fileSize userId)]⟩ with
    | error p => rfl
    | ok st => rfl
  rw [h1, h2, List.nil_append, List.append_nil]
  exact hsub

/-- C9: chunk naming policy of `Put` for a known size.
(i) With the randomize flag on, every transfer carries the digest of the
per-chunk uuid draw; if the derived digests of distinct planned chunks
are pairwise distinct (fresh uuids without digest collision), then no
two transfer requests of the upload share a chunk name.
(ii) With the flag off and more than one planned chunk, the transfer of
chunk k carries the name `fileName ++ ".part." ++ pad3 k` (zero-padded
three-digit ordinal).
(iii) With the flag off and exactly one planned chunk, the transfer
carries the file name unchanged. -/
theorem C9_chunk_naming (cfg : Addition) (userId : Int) (dstPath fileName : String)
    (fileSize : Int) (env : Env) (hS : 0 ≤ fileSize) :
    (cfg.randomChunkName = true →
      (∀ i ∈ chunkNos (ctxOf cfg env fileName fileSize).totalChunks,
        ∀ j ∈ chunkNos (ctxOf cfg env fileName fileSize).totalChunks, i ≠ j →
        getMD5Hash (env.uuid i) ≠ getMD5Hash (env.uuid j)) →
      List.Pairwise (fun a b : Int × String => a.2 ≠ b.2)
        (transferPairs (PutModel cfg userId dstPath fileName fileSize env).trace)) ∧
    (cfg.randomChunkName = false → (ctxOf cfg env fileName fileSize).totalChunks > 1 →
      ∀ k name n, Event.chunkTransfer k name n ∈
        (PutModel cfg userId dstPath fileName fileSize env).trace →
        name = fileName ++ ".part." ++ pad3 k) ∧
    (cfg.randomChunkName = false → (ctxOf cfg env fileName fileSize).totalChunks = 1 →
      ∀ k name n, Event.chunkTransfer k name n ∈
        (PutModel cfg userId dstPath fileName fileSize env).trace →
        name = fileName) := by
  have hev := PutModel_transfer_events cfg userId dstPath fileName fileSize env hS
  refine ⟨?_, ?_, ?_⟩
  · intro hrand hdist
    have hfst : List.Pairwise (· < ·)
        ((transferPairs (PutModel cfg userId dstPath fileName fileSize env).trace).map
          (fun p => p.1)) := by
      rw [← transferredChunks_eq_map_pairs]
      exact (pairwise_lt_chunkNos _).sublist
        (PutModel_transferredChunks_sublist cfg userId dstPath fileName fileSize env hS)
    have hpl := List.pairwise_map.mp hfst
    refine hpl.imp_of_mem ?_
    intro a b ha hb hlt
    obtain ⟨na, hea⟩ := mem_transferPairs ha
    obtain ⟨nb, heb⟩ := mem_transferPairs hb
    obtain ⟨hma, hexa, hna⟩ := hev _ _ _ hea
    obtain ⟨hmb, hexb, hnb⟩ := hev _ _ _ heb
    rw [hna, hnb]
    unfold chunkNameOf
    rw [if_pos hrand, if_pos hrand]
    exact hdist a.1 hma b.1 hmb (by omega)
  · intro hrand htc k name n hmem
    obtain ⟨hm, hex, hn⟩ := hev _ _ _ hmem
    rw [hn]
    unfold chunkNameOf
    rw [if_neg (by rw [hrand]; exact Bool.false_ne_true), if_pos htc]
  · intro hrand htc k name n hmem
    obtain ⟨hm, hex, hn⟩ := hev _ _ _ hmem
    rw [hn]
    unfold chunkNameOf
    rw [if_neg (by rw [hrand]; exact Bool.false_ne_true), if_neg (by omega)]

/-- Relation between the loop states of two runs that differ only in
how many bytes the source stream can supply: equal uploaded size, equal
accumulated parts, and equal traces up to the recorded discard counts. -/
def LoopRel (sa sb : LoopSt) : Prop :=
  sa.uploadedSize = sb.uploadedSize ∧ sa.partsToCommit = sb.partsToCommit ∧
  sa.trace.map withoutDiscard = sb.trace.map withoutDiscard

/-- The same relation on loop outcomes. -/
def ExcRel : Except (UploadError × LoopSt) LoopSt →
    Except (UploadError × LoopSt) LoopSt → Prop
  | .ok a, .ok b => LoopRel a b
  | .error (e, a), .error (g, b) => e = g ∧ LoopRel a b
  | _, _ => False

theorem stepChunk_avail (ctx : Ctx) (a : Int) (c : Int) {sa sb : LoopSt}
    (h : LoopRel sa sb) :
    ExcRel (stepChunk ctx c sa)
      (stepChunk { ctx with env := { ctx.env with streamAvail := a } } c sb) := by
  obtain ⟨h1, h2, h3⟩ := h
  have hname : chunkNameOf ctx.cfg { ctx.env with streamAvail := a } ctx.fileName
      ctx.totalChunks c = chunkNameOf ctx.cfg ctx.env ctx.fileName ctx.totalChunks c := rfl
  cases hex : ctx.existing c with
  | some ex =>
    have hex2 : ({ ctx with env := { ctx.env with streamAvail := a } } : Ctx).existing c =
        some ex := hex
    simp only [stepChunk, hex, hex2]
    refine ⟨?_, ?_, ?_⟩ <;> dsimp only
    · rw [h1]
    · rw [h2]
    · simp only [List.map_append, h3, List.map_cons, List.map_nil, withoutDiscard, h1]
  | none =>
    have hex2 : ({ ctx with env := { ctx.env with streamAvail := a } } : Ctx).existing c =
        none := hex
    cases htr : ctx.env.transfer c with
    | transportError msg =>
      have htr2 : ({ ctx with env := { ctx.env with streamAvail := a } } : Ctx).env.transfer c =
          .transportError msg := htr
      simp only [stepChunk, hex, hex2, htr, htr2]
      refine ⟨rfl, ?_, ?_, ?_⟩ <;> dsimp only
      · exact h1
      · exact h2
      · simp only [List.map_append, h3, List.map_cons, List.map_nil, withoutDiscard, h1, hname]
    | badStatus body =>
      have htr2 : ({ ctx with env := { ctx.env with streamAvail := a } } : Ctx).env.transfer c =
          .badStatus body := htr
      simp only [stepChunk, hex, hex2, htr, htr2]
      refine ⟨rfl, ?_, ?_, ?_⟩ <;> dsimp only
      · exact h1
      · exact h2
      · simp only [List.map_append, h3, List.map_cons, List.map_nil, withoutDiscard, h1, hname]
    | parseError msg =>
      have htr2 : ({ ctx with env := { ctx.env with streamAvail := a } } : Ctx).env.transfer c =
          .parseError msg := htr
      simp only [stepChunk, hex, hex2, htr, htr2]
      refine ⟨rfl, ?_, ?_, ?_⟩ <;> dsimp only
      · exact h1
      · exact h2
      · simp only [List.map_append, h3, List.map_cons, List.map_nil, withoutDiscard, h1, hname]
    | parsed p =>
      have htr2 : ({ ctx with env := { ctx.env with streamAvail := a } } : Ctx).env.transfer c =
          .parsed p := htr
      by_cases hid : p.partId = 0
      · simp only [stepChunk, hex, hex2, htr, htr2, hid, if_pos]
        refine ⟨rfl, ?_, ?_, ?_⟩ <;> dsimp only
        · exact h1
        · exact h2
        · simp only [List.map_append, h3, List.map_cons, List.map_nil, withoutDiscard, h1, hname]
      · simp only [stepChunk, hex, hex2, htr, htr2, hid, if_neg]
        refine ⟨?_, ?_, ?_⟩ <;> dsimp only
        · rw [h1]
        · rw [h2]
        · simp only [List.map_append, h3, List.map_cons, List.map_nil, withoutDiscard, h1, hname]

theorem runChunks_avail (ctx : Ctx) (a : Int) (l : List Int) :
    ∀ {sa sb : LoopSt}, LoopRel sa sb →
    ExcRel (runChunks ctx l sa)
      (runChunks { ctx with env := { ctx.env with streamAvail := a } } l sb) := by
  induction l with
  | nil =>
    intro sa sb h
    exact h
  | cons c rest ih =>
    intro sa sb h
    have hstep := stepChunk_avail ctx a c h
    simp only [runChunks]
    cases hA : stepChunk ctx c sa with
    | error pa =>
      cases hB : stepChunk { ctx with env := { ctx.env with streamAvail := a } } c sb with
      | error pb =>
        rw [hA, hB] at hstep
        obtain ⟨e1, s1⟩ := pa
        obtain ⟨e2, s2⟩ := pb
        exact hstep
      | ok s2 =>
        rw [hA, hB] at hstep
        obtain ⟨e1, s1⟩ := pa
        cases hstep
    | ok s1 =>
      cases hB : stepChunk { ctx with env := { ctx.env with streamAvail := a } } c sb with
      | error pb =>
        rw [hA, hB] at hstep
        obtain ⟨e2, s2⟩ := pb
        cases hstep
      | ok s2 =>
        rw [hA, hB] at hstep
        exact ih hstep

/-- C10: the outcome of a skip does not depend on what the stream could
actually supply.
(a) For every alternative stream supply `a`, the run with supply `a`
returns the same result and the same trace up to the recorded discard
counts (in particular, a stream shorter than a recorded part size causes
no error and changes nothing observable but the discard count).
(b) With sane registry sizes and successful transfers — but no
assumption at all on the stream supply — the loop completes, `Put`
proceeds to the create-file call, and every progress report still
advances by the full planned (= recorded) chunk size. -/
theorem C10_discard_outcome_ignored (cfg : Addition) (userId : Int)
    (dstPath fileName : String) (fileSize : Int) (env : Env)
    (hM : 0 < cfg.chunkSizeMB) (hS : 0 ≤ fileSize)
    (hsizes : ∀ k ∈ chunkNos (ctxOf cfg env fileName fileSize).totalChunks,
      sizeOkAt (existingChunksOf env.registry) fileSize (chunkSizeOf cfg)
        (ctxOf cfg env fileName fileSize).totalChunks k = true)
    (hok : ∀ k ∈ chunkNos (ctxOf cfg env fileName fileSize).totalChunks,
      existingChunksOf env.registry k = none → transferOk (env.transfer k) = true) :
    (∀ a : Int,
      (PutModel cfg userId dstPath fileName fileSize
        { env with streamAvail := a }).result =
        (PutModel cfg userId dstPath fileName fileSize env).result ∧
      (PutModel cfg userId dstPath fileName fileSize
        { env with streamAvail := a }).trace.map withoutDiscard =
        (PutModel cfg userId dstPath fileName fileSize env).trace.map withoutDiscard) ∧
    (PutModel cfg userId dstPath fileName fileSize env).result =
      commitResult env fileName fileSize (if dstPath = "/" then "" else dstPath) ∧
    progressValues (PutModel cfg userId dstPath fileName fileSize env).trace =
      (chunkNos (ctxOf cfg env fileName fileSize).totalChunks).map (fun k =>
        progressRatio (sumPlanned fileSize (chunkSizeOf cfg)
          (ctxOf cfg env fileName fileSize).totalChunks k) fileSize) := by
  have hclean := PutModel_clean cfg userId dstPath fileName fileSize env hM hS hsizes hok
  refine ⟨?_, ?_, ?_⟩
  · intro a
    rw [PutModel_decomp cfg userId dstPath fileName fileSize env hS,
      PutModel_decomp cfg userId dstPath fileName fileSize { env with streamAvail := a } hS]
    have hctx : ctxOf cfg { env with streamAvail := a } fileName fileSize =
        { ctxOf cfg env fileName fileSize with
          env := { (ctxOf cfg env fileName fileSize).env with streamAvail := a } } := rfl
    rw [hctx]
    have hrel := @runChunks_avail (ctxOf cfg env fileName fileSize) a
      (chunkNos (ctxOf cfg env fileName fileSize).totalChunks)
      ⟨0, [], 0, [.registryQuery (uploadIDOf (if dstPath = "/" then "" else dstPath)
        fileName fileSize userId)]⟩
      ⟨0, [], 0, [.registryQuery (uploadIDOf (if dstPath = "/" then "" else dstPath)
        fileName fileSize userId)]⟩
      ⟨rfl, rfl, rfl⟩
    cases hA : runChunks (ctxOf cfg env fileName fileSize)
        (chunkNos (ctxOf cfg env fileName fileSize).totalChunks)
        ⟨0, [], 0, [.registryQuery (uploadIDOf (if dstPath = "/" then "" else dstPath)
          fileName fileSize userId)]⟩ with
    | error pa =>
      cases hB : runChunks { ctxOf cfg env fileName fileSize with
          env := { (ctxOf cfg env fileName fileSize).env with streamAvail := a } }
          (chunkNos (ctxOf cfg env fileName fileSize).totalChunks)
          ⟨0, [], 0, [.registryQuery (uploadIDOf (if dstPath = "/" then "" else dstPath)
            fileName fileSize userId)]⟩ with
      | error pb =>
        rw [hA, hB] at hrel
        obtain ⟨e1, s1⟩ := pa
        obtain ⟨e2, s2⟩ := pb
        obtain ⟨he, hu, hp, ht⟩ := hrel
        subst he
        refine ⟨rfl, ?_⟩
        simp only [traceOf, commitTail, List.append_nil]
        exact ht.symm
      | ok s2 =>
        rw [hA, hB] at hrel
        obtain ⟨e1, s1⟩ := pa
        cases hrel
    | ok s1 =>
      cases hB : runChunks { ctxOf cfg env fileName fileSize with
          env := { (ctxOf cfg env fileName fileSize).env with streamAvail := a } }
          (chunkNos (ctxOf cfg env fileName fileSize).totalChunks)
          ⟨0, [], 0, [.registryQuery (uploadIDOf (if dstPath = "/" then "" else dstPath)
            fileName fileSize userId)]⟩ with
      | error pb =>
        rw [hA, hB] at hrel
        obtain ⟨e2, s2⟩ := pb
        cases hrel
      | ok s2 =>
        rw [hA, hB] at hrel
        obtain ⟨hu, hp, ht⟩ := hrel
        constructor
        · show resultOf env fileName fileSize _ (Except.ok s2) =
            resultOf env fileName fileSize _ (Except.ok s1)
          rfl
        · show (traceOf (Except.ok s2) ++ commitTail (Except.ok s2)).map withoutDiscard =
            (traceOf (Except.ok s1) ++ commitTail (Except.ok s1)).map withoutDiscard
          simp only [traceOf, commitTail, List.map_append, List.map_cons, List.map_nil,
            withoutDiscard, hp]
          rw [ht.symm]
  · rw [hclean]
  · rw [hclean]
    show progressValues (_ ++ _ ++ _) = _
    rw [progressValues_append, progressValues_append, progressValues_flatMap]
    simp only [progressValues, List.filterMap_cons, List.filterMap_nil, List.append_nil,
      List.nil_append]
    rfl

/-! Concrete instances used to evaluate the theorems.  The running
example: a 2,200,000-byte file with a 1 MB chunk size, so three planned
chunks of lengths [1048576, 1048576, 102848]. -/

/-- Part record with the given sequence number, part id and size. -/
def samplePart (no pid sz : Int) : PartFile :=
  { name := "p", partId := pid, partNo := no, totalParts := 3, size := sz
    channelID := 7, encrypted := false, salt := "s" }

/-- Create-file response used by the samples. -/
def sampleCommit : CommitOutcome := .parsed { id := "fid", parentId := "pid" }

/-- Transfer endpoint that succeeds on every chunk, echoing the part
number and returning part id `100 + k`. -/
def sampleTransfer (k : Int) : TransferOutcome := .parsed (samplePart k (100 + k) 0)

/-- Environment whose registry holds chunk 1 (with its planned size
1048576) of the three-chunk plan. -/
def sampleEnv : Env :=
  { registry := .response 200 (some [samplePart 1 11 1048576])
    transfer := sampleTransfer
    uuid := fun k => toString k
    commit := sampleCommit
    streamAvail := 2200000 }

/-- Configuration with a 1 MB chunk size and the randomize flag off. -/
def sampleCfg : Addition :=
  { chunkSizeMB := 1, randomChunkName := false, encryptFiles := false }

/-- Configuration with a 500 MB chunk size (the example of the plan claim). -/
def cfg500 : Addition :=
  { chunkSizeMB := 500, randomChunkName := false, encryptFiles := false }

/-- Configuration with the randomize-name flag on. -/
def cfgRand : Addition :=
  { chunkSizeMB := 1, randomChunkName := true, encryptFiles := false }

/-- Configuration differing from the sample in every field. -/
def cfgAlt : Addition :=
  { chunkSizeMB := 5, randomChunkName := true, encryptFiles := true }

/-- Environment whose registry lookup returned 404 with an unparseable
body (a fresh upload). -/
def envFresh : Env :=
  { registry := .response 404 none
    transfer := sampleTransfer
    uuid := fun k => toString k
    commit := sampleCommit
    streamAvail := 1200000000 }

/-- Transfer endpoint that fails every chunk with a non-200 response. -/
def failTransfer : Int → TransferOutcome := fun _ => .badStatus "boom"

/-- Failing-transfer environment with an empty registry: the upload
aborts at chunk 1. -/
def envFail1 : Env :=
  { registry := .response 404 none, transfer := failTransfer
    uuid := fun k => toString k, commit := sampleCommit, streamAvail := 2200000 }

/-- Failing-transfer environment whose registry holds chunk 1: the
upload skips chunk 1 and aborts at chunk 2. -/
def envFail2 : Env :=
  { registry := .response 200 (some [samplePart 1 11 1048576]), transfer := failTransfer
    uuid := fun k => toString k, commit := sampleCommit, streamAvail := 2200000 }

/-- Witness for C1 at the scenario of the claim: three planned chunks,
registry holding sequence 1 only; the run transfers exactly chunks 2
and 3 and commits a three-entry manifest with part numbers [1, 2, 3]. -/
theorem C1_witness :
    (0 : Int) < sampleCfg.chunkSizeMB ∧
    (0 : Int) ≤ 2200000 ∧
    sampleEnv.streamAvail = 2200000 ∧
    (∀ k ∈ chunkNos (ctxOf sampleCfg sampleEnv "f.bin" 2200000).totalChunks,
      sizeOkAt (existingChunksOf sampleEnv.registry) 2200000 (chunkSizeOf sampleCfg)
        (ctxOf sampleCfg sampleEnv "f.bin" 2200000).totalChunks k = true) ∧
    (∀ k ∈ chunkNos (ctxOf sampleCfg sampleEnv "f.bin" 2200000).totalChunks,
      existingChunksOf sampleEnv.registry k = none →
      transferOk (sampleEnv.transfer k) = true) ∧
    (∀ k ∈ chunkNos (ctxOf sampleCfg sampleEnv "f.bin" 2200000).totalChunks,
      existingChunksOf sampleEnv.registry k = none →
      transferEcho (sampleEnv.transfer k) k = true) ∧
    (ctxOf sampleCfg sampleEnv "f.bin" 2200000).totalChunks = 3 ∧
    (chunkNos (ctxOf sampleCfg sampleEnv "f.bin" 2200000).totalChunks).filter
      (fun k => (existingChunksOf sampleEnv.registry k).isNone) = [2, 3] ∧
    ((chunkNos (ctxOf sampleCfg sampleEnv "f.bin" 2200000).totalChunks).map
      (partAt (existingChunksOf sampleEnv.registry) sampleEnv)).map (fun p => p.partNo) =
      [1, 2, 3] ∧
    (transferredChunks (PutModel sampleCfg 42 "/docs" "f.bin" 2200000 sampleEnv).trace =
      (chunkNos (ctxOf sampleCfg sampleEnv "f.bin" 2200000).totalChunks).filter
        (fun k => (existingChunksOf sampleEnv.registry k).isNone) ∧
    (∀ k r d, Event.skipChunk k r d ∈
        (PutModel sampleCfg 42 "/docs" "f.bin" 2200000 sampleEnv).trace →
      ∃ ex, existingChunksOf sampleEnv.registry k = some ex ∧ r = ex.size ∧ d = r) ∧
    commitManifests (PutModel sampleCfg 42 "/docs" "f.bin" 2200000 sampleEnv).trace =
      [((chunkNos (ctxOf sampleCfg sampleEnv "f.bin" 2200000).totalChunks).map
        (partAt (existingChunksOf sampleEnv.registry) sampleEnv)).map toFilePart] ∧
    ((chunkNos (ctxOf sampleCfg sampleEnv "f.bin" 2200000).totalChunks).map
      (partAt (existingChunksOf sampleEnv.registry) sampleEnv)).map (fun p => p.partNo) =
      chunkNos (ctxOf sampleCfg sampleEnv "f.bin" 2200000).totalChunks) :=
  ⟨by decide, by decide, by decide, by decide, by decide, by decide, by decide, by decide,
    by decide,
    C1_resume_skips_and_transfers sampleCfg 42 "/docs" "f.bin" 2200000 sampleEnv
      (by decide) (by decide) (by decide) (by decide) (by decide) (by decide)⟩

/-- Counterexample to C2 as stated: the run aborting at chunk 1 (fresh
registry) and the run aborting at chunk 2 (chunk 1 skipped) return the
very same error value, so the returned error does not identify the
failing chunk sequence number — the Go messages interpolate only the
transport error or the response body, never the chunk number. -/
theorem C2_counterexample :
    transferredChunks (PutModel sampleCfg 42 "/docs" "f.bin" 2200000 envFail1).trace = [1] ∧
    transferredChunks (PutModel sampleCfg 42 "/docs" "f.bin" 2200000 envFail2).trace = [2] ∧
    (PutModel sampleCfg 42 "/docs" "f.bin" 2200000 envFail1).result =
      (PutModel sampleCfg 42 "/docs" "f.bin" 2200000 envFail2).result ∧
    (PutModel sampleCfg 42 "/docs" "f.bin" 2200000 envFail1).result =
      .error (.transferBadStatus "boom") := by
  decide

/-- Witness for the amended C2 at the scenario of the claim: chunk 2
fails with a non-200 response; the upload aborts there, transfers no
chunk beyond 2, and makes no create-file call. -/
theorem C2_witness :
    (0 : Int) ≤ 2200000 ∧
    (2 : Int) ∈ chunkNos (ctxOf sampleCfg envFail2 "f.bin" 2200000).totalChunks ∧
    existingChunksOf envFail2.registry 2 = none ∧
    transferOk (envFail2.transfer 2) = false ∧
    (∀ k ∈ chunkNos (ctxOf sampleCfg envFail2 "f.bin" 2200000).totalChunks, k < 2 →
      existingChunksOf envFail2.registry k = none →
      transferOk (envFail2.transfer k) = true) ∧
    ((PutModel sampleCfg 42 "/docs" "f.bin" 2200000 envFail2).result =
      .error (errorOfTransfer (envFail2.transfer 2)) ∧
    (∀ k name n, Event.chunkTransfer k name n ∈
      (PutModel sampleCfg 42 "/docs" "f.bin" 2200000 envFail2).trace → k ≤ 2) ∧
    (∀ ps, Event.commitCall ps ∉
      (PutModel sampleCfg 42 "/docs" "f.bin" 2200000 envFail2).trace)) :=
  ⟨by decide, by decide, by decide, by decide, by decide,
    C2_abort_on_transfer_failure sampleCfg 42 "/docs" "f.bin" 2200000 envFail2
      (by decide) 2 (by decide) (by decide) (by decide) (by decide)⟩

/-- Counterexample to the concrete example embedded in C3: with
S = 1,200,000,000 bytes and a configured chunk size of 500 (megabytes),
the code plans 3 chunks of byte lengths [524288000, 524288000,
151424000].  The last chunk holds 151,424,000 bytes, which is 200 MB
under neither convention (200·2^20 = 209,715,200 and 200·10^6 =
200,000,000), so the claimed lengths [500MB, 500MB, 200MB] do not match
the code. -/
theorem C3_counterexample :
    transferLens (PutModel cfg500 42 "/docs" "f.bin" 1200000000 envFresh).trace =
      [524288000, 524288000, 151424000] ∧
    (524288000 : Int) = 500 * 1024 * 1024 ∧
    (151424000 : Int) ≠ 200 * 1024 * 1024 ∧
    (151424000 : Int) ≠ 200000000 := by
  decide

/-- Witness for the amended C3 at the example of the claim: the plan for
S = 1,200,000,000 and configured chunk size 500 has ceil(S/C) = 3 chunks
of lengths [524288000, 524288000, 151424000] summing to S, with every
chunk but the last of length C = 524,288,000. -/
theorem C3_witness :
    (0 : Int) < cfg500.chunkSizeMB ∧ (0 : Int) ≤ 1200000000 ∧
    (∀ k ∈ chunkNos (ctxOf cfg500 envFresh "f.bin" 1200000000).totalChunks,
      transferOk (envFresh.transfer k) = true) ∧
    (ctxOf cfg500 envFresh "f.bin" 1200000000).totalChunks = 3 ∧
    (chunkNos (ctxOf cfg500 envFresh "f.bin" 1200000000).totalChunks).map
      (plannedLen 1200000000 (chunkSizeOf cfg500)
        (ctxOf cfg500 envFresh "f.bin" 1200000000).totalChunks) =
      [524288000, 524288000, 151424000] ∧
    ((ctxOf cfg500 envFresh "f.bin" 1200000000).totalChunks =
      ⌈((1200000000 : Int) : ℚ) / (chunkSizeOf cfg500 : ℚ)⌉ ∧
    transferLens (PutModel cfg500 42 "/docs" "f.bin" 1200000000 envFresh).trace =
      (chunkNos (ctxOf cfg500 envFresh "f.bin" 1200000000).totalChunks).map
        (plannedLen 1200000000 (chunkSizeOf cfg500)
          (ctxOf cfg500 envFresh "f.bin" 1200000000).totalChunks) ∧
    ((chunkNos (ctxOf cfg500 envFresh "f.bin" 1200000000).totalChunks).map
      (plannedLen 1200000000 (chunkSizeOf cfg500)
        (ctxOf cfg500 envFresh "f.bin" 1200000000).totalChunks)).sum = 1200000000 ∧
    (∀ k ∈ chunkNos (ctxOf cfg500 envFresh "f.bin" 1200000000).totalChunks,
      k ≠ (ctxOf cfg500 envFresh "f.bin" 1200000000).totalChunks →
      plannedLen 1200000000 (chunkSizeOf cfg500)
        (ctxOf cfg500 envFresh "f.bin" 1200000000).totalChunks k = chunkSizeOf cfg500)) :=
  ⟨by decide, by decide, by decide, by decide, by decide,
    C3_chunk_plan cfg500 42 "/docs" "f.bin" 1200000000 envFresh (by decide) (by decide)
      (fun k => rfl) (by decide)⟩

/-- Witness for C4 at a mixed run (chunk 1 reused from the registry,
chunks 2 and 3 freshly transferred): the committed manifest underlying
part numbers are exactly [1, 2, 3]. -/
theorem C4_witness :
    (0 : Int) ≤ 2200000 ∧
    (∀ k ∈ chunkNos (ctxOf sampleCfg sampleEnv "f.bin" 2200000).totalChunks,
      existingChunksOf sampleEnv.registry k = none →
      transferOk (sampleEnv.transfer k) = true) ∧
    (∀ k ∈ chunkNos (ctxOf sampleCfg sampleEnv "f.bin" 2200000).totalChunks,
      existingChunksOf sampleEnv.registry k = none →
      transferEcho (sampleEnv.transfer k) k = true) ∧
    chunkNos (ctxOf sampleCfg sampleEnv "f.bin" 2200000).totalChunks = [1, 2, 3] ∧
    (commitManifests (PutModel sampleCfg 42 "/docs" "f.bin" 2200000 sampleEnv).trace =
      [((chunkNos (ctxOf sampleCfg sampleEnv "f.bin" 2200000).totalChunks).map
        (partAt (existingChunksOf sampleEnv.registry) sampleEnv)).map toFilePart] ∧
    ((chunkNos (ctxOf sampleCfg sampleEnv "f.bin" 2200000).totalChunks).map
      (partAt (existingChunksOf sampleEnv.registry) sampleEnv)).map (fun p => p.partNo) =
      chunkNos (ctxOf sampleCfg sampleEnv "f.bin" 2200000).totalChunks) :=
  ⟨by decide, by decide, by decide, by decide,
    C4_manifest_ordered sampleCfg 42 "/docs" "f.bin" 2200000 sampleEnv
      (by decide) (by decide) (by decide)⟩

/-- Witness for C5 at the running example: the three reported progress
values follow the cumulative-planned-bytes formula, are non-decreasing,
stay below 100 before the final chunk, end at exactly 100, and the
create-file call comes after every report. -/
theorem C5_witness :
    (0 : Int) < sampleCfg.chunkSizeMB ∧
    (0 : Int) < 2200000 ∧
    (∀ k ∈ chunkNos (ctxOf sampleCfg sampleEnv "f.bin" 2200000).totalChunks,
      sizeOkAt (existingChunksOf sampleEnv.registry) 2200000 (chunkSizeOf sampleCfg)
        (ctxOf sampleCfg sampleEnv "f.bin" 2200000).totalChunks k = true) ∧
    (∀ k ∈ chunkNos (ctxOf sampleCfg sampleEnv "f.bin" 2200000).totalChunks,
      existingChunksOf sampleEnv.registry k = none →
      transferOk (sampleEnv.transfer k) = true) ∧
    (progressValues (PutModel sampleCfg 42 "/docs" "f.bin" 2200000 sampleEnv).trace =
      (chunkNos (ctxOf sampleCfg sampleEnv "f.bin" 2200000).totalChunks).map (fun k =>
        progressRatio (sumPlanned 2200000 (chunkSizeOf sampleCfg)
          (ctxOf sampleCfg sampleEnv "f.bin" 2200000).totalChunks k) 2200000) ∧
    List.Pairwise (· ≤ ·)
      (progressValues (PutModel sampleCfg 42 "/docs" "f.bin" 2200000 sampleEnv).trace) ∧
    (∀ k ∈ chunkNos (ctxOf sampleCfg sampleEnv "f.bin" 2200000).totalChunks,
      k ≠ (ctxOf sampleCfg sampleEnv "f.bin" 2200000).totalChunks →
      progressRatio (sumPlanned 2200000 (chunkSizeOf sampleCfg)
        (ctxOf sampleCfg sampleEnv "f.bin" 2200000).totalChunks k) 2200000 < 100) ∧
    (progressValues (PutModel sampleCfg 42 "/docs" "f.bin" 2200000 sampleEnv).trace).getLast? =
      some 100 ∧
    (∃ pre ps, (PutModel sampleCfg 42 "/docs" "f.bin" 2200000 sampleEnv).trace =
      pre ++ [.commitCall ps])) :=
  ⟨by decide, by decide, by decide, by decide,
    C5_progress_monotone sampleCfg 42 "/docs" "f.bin" 2200000 sampleEnv
      (by decide) (by decide) (by decide) (by decide)⟩

/-- Witness for C6: with the 404/unparseable registry answer, the run
equals the empty-registry run and all three planned chunks are
transferred. -/
theorem C6_witness :
    registryFailed envFresh.registry = true ∧
    (0 : Int) < sampleCfg.chunkSizeMB ∧
    (0 : Int) ≤ 2200000 ∧
    (∀ k ∈ chunkNos (ctxOf sampleCfg envFresh "f.bin" 2200000).totalChunks,
      transferOk (envFresh.transfer k) = true) ∧
    (PutModel sampleCfg 42 "/docs" "f.bin" 2200000 envFresh =
      PutModel sampleCfg 42 "/docs" "f.bin" 2200000
        { envFresh with registry := .response 200 (some []) } ∧
    transferredChunks (PutModel sampleCfg 42 "/docs" "f.bin" 2200000 envFresh).trace =
      chunkNos (ctxOf sampleCfg envFresh "f.bin" 2200000).totalChunks) :=
  ⟨by decide, by decide, by decide, by decide,
    C6_registry_failure_degrades sampleCfg 42 "/docs" "f.bin" 2200000 envFresh
      (by decide) (by decide) (by decide) (by decide)⟩

/-- Witness for C7: two runs with different configurations and
environments but the same (path, name, size, owner) query the registry
with the same derived session id. -/
theorem C7_witness :
    (0 : Int) ≤ 2200000 ∧
    (registryIds (PutModel sampleCfg 42 "/docs" "f.bin" 2200000 sampleEnv).trace =
      [uploadIDOf (if "/docs" = "/" then "" else "/docs") "f.bin" 2200000 42] ∧
    registryIds (PutModel cfgAlt 42 "/docs" "f.bin" 2200000 envFresh).trace =
      registryIds (PutModel sampleCfg 42 "/docs" "f.bin" 2200000 sampleEnv).trace) :=
  ⟨by decide,
    C7_uploadID_deterministic "/docs" "f.bin" 2200000 42 sampleCfg cfgAlt
      sampleEnv envFresh (by decide)⟩

/-- Witness for C8: a file of reported size -1 is rejected with the
unsupported-size error and an empty trace. -/
theorem C8_witness :
    (-1 : Int) < 0 ∧
    PutModel sampleCfg 42 "/docs" "f.bin" (-1) sampleEnv =
      { result := .error .unsupportedSize, trace := [] } :=
  ⟨by decide, C8_negative_size_rejected sampleCfg 42 "/docs" "f.bin" (-1) sampleEnv
    (by decide)⟩

/-- Witness for C9: with the randomize flag on (and the concrete uuid
draws of the sample), the three transfer names are pairwise distinct;
with it off, chunk 2 of the three-chunk upload is named
`f.bin.part.002`. -/
theorem C9_witness :
    (0 : Int) ≤ 2200000 ∧
    List.Pairwise (fun a b : Int × String => a.2 ≠ b.2)
      (transferPairs (PutModel cfgRand 42 "/docs" "f.bin" 2200000 envFresh).trace) ∧
    (∀ k name n, Event.chunkTransfer k name n ∈
      (PutModel sampleCfg 42 "/docs" "f.bin" 2200000 envFresh).trace →
      name = "f.bin" ++ ".part." ++ pad3 k) :=
  ⟨by decide,
    (C9_chunk_naming cfgRand 42 "/docs" "f.bin" 2200000 envFresh (by decide)).1
      rfl (by decide),
    (C9_chunk_naming sampleCfg 42 "/docs" "f.bin" 2200000 envFresh (by decide)).2.1
      rfl (by decide)⟩

/-- Witness for C10: shrinking the stream supply to 0 bytes — less than
the recorded size of the skipped chunk — changes nothing in the result
of the running example. -/
theorem C10_witness :
    (0 : Int) < sampleCfg.chunkSizeMB ∧
    (0 : Int) ≤ 2200000 ∧
    (∀ k ∈ chunkNos (ctxOf sampleCfg sampleEnv "f.bin" 2200000).totalChunks,
      sizeOkAt (existingChunksOf sampleEnv.registry) 2200000 (chunkSizeOf sampleCfg)
        (ctxOf sampleCfg sampleEnv "f.bin" 2200000).totalChunks k = true) ∧
    (∀ k ∈ chunkNos (ctxOf sampleCfg sampleEnv "f.bin" 2200000).totalChunks,
      existingChunksOf sampleEnv.registry k = none →
      transferOk (sampleEnv.transfer k) = true) ∧
    (PutModel sampleCfg 42 "/docs" "f.bin" 2200000
      { sampleEnv with streamAvail := 0 }).result =
      (PutModel sampleCfg 42 "/docs" "f.bin" 2200000 sampleEnv).result :=
  ⟨by decide, by decide, by decide, by decide,
    ((C10_discard_outcome_ignored sampleCfg 42 "/docs" "f.bin" 2200000 sampleEnv
      (by decide) (by decide) (by decide) (by decide)).1 0).1⟩

end Teldrive
